import Mathlib

/-!
# FFTF KissFFT engine wrapper (`src/engine_kiss.c`)

A shallow embedding of `init_kiss`, `calc_kiss` and `destroy_kiss`.

* Scalars are elements of a field `α`; the C `float` operations are read as the
  exact field operations, and the literal `3.141592f` as the `float` it denotes,
  `1647099 / 524288`.  The libm functions `cosf`/`sinf` and the four KissFFT
  primitives are not part of `engine_kiss.c`: they are the fields of `Backend`.
* Buffers are index-to-value maps `Nat → α`; a store is `Function.update`.  The
  caller's arrays and the two scratch arrays are distinct.
* `instance->length` is a natural number.  The sizes `init_kiss` computes are
  `int` expressions: `IntRange` gives `INT_MAX`, and an expression whose value
  exceeds it has no value (signed overflow).  `IntRange.unbounded` is the
  idealisation with mathematical integers.  `calc_kiss` computes its indices and
  divisors exactly and logs each of them.
* A heap records which blocks are live and which release routine freed them.
* `assert` aborts unless the build defines `NDEBUG`.
-/

namespace FFTF

/-! ## Interface types -/

/-- Modelled from the spec: the enumeration `FFTFType` of the interface header,
with the three enumerators `engine_kiss.c` switches on. -/
inductive FFTFType
  | FFTF_TYPE_COMPLEX
  | FFTF_TYPE_REAL
  | FFTF_TYPE_DCT
  deriving DecidableEq, Repr

/-- Modelled from the spec: the enumeration `FFTFDirection` of the interface
header, with the two enumerators `engine_kiss.c` tests. -/
inductive FFTFDirection
  | FFTF_DIRECTION_FORWARD
  | FFTF_DIRECTION_BACKWARD
  deriving DecidableEq, Repr

/-- Modelled from the spec: the enumeration `FFTFDimension` of the interface
header, held as its numeric value, which `init_kiss` hands to `kiss_fftnd_alloc`
as the number of dimensions. -/
structure FFTFDimension where
  ndims : Nat
  deriving DecidableEq, Repr

/-- Modelled from the spec: the enumerator `FFTF_DIMENSION_1D`. -/
def FFTFDimension.FFTF_DIMENSION_1D : FFTFDimension := { ndims := 1 }

/-! ## The C type `int` -/

/-- The range of the C type `int`: `INT_MAX = some M` bounds every `int` value by
`M`, and `INT_MAX = none` is the idealisation with unbounded integers. -/
structure IntRange where
  INT_MAX : Option Nat
  deriving DecidableEq, Repr

/-- Mathematical integers in place of `int`. -/
def IntRange.unbounded : IntRange := { INT_MAX := none }

/-- The 32-bit `int`, `INT_MAX = 2147483647`. -/
def IntRange.int32 : IntRange := { INT_MAX := some 2147483647 }

/-- The value of an `int` expression whose mathematical value is `n`: it has no
value when `n` exceeds `INT_MAX`. -/
def IntRange.eval (I : IntRange) (n : Nat) : Option Nat :=
  match I.INT_MAX with
  | none => some n
  | some M => if n ≤ M then some n else none

/-- The value `n` is representable as an `int`. -/
def IntRange.Fits (I : IntRange) (n : Nat) : Prop := I.eval n = some n

/-! ## Heap -/

/-- Allocation routines called by `init_kiss`. -/
inductive Allocator
  | kiss_fft_alloc
  | kiss_fftnd_alloc
  | kiss_fftr_alloc
  | malloc
  | fftf_malloc
  deriving DecidableEq, Repr

/-- Release routines called by `destroy_kiss`. -/
inductive Deallocator
  | kiss_fft_free
  | kiss_fftnd_free
  | free
  deriving DecidableEq, Repr

/-- Heap bookkeeping: the next fresh address, the live blocks (with the routine
that allocated each) and the release calls made so far, latest first. -/
structure Heap where
  next : Nat
  live : List (Nat × Allocator)
  released : List (Nat × Deallocator)
  deriving DecidableEq, Repr

/-- Allocate a fresh block. -/
def Heap.alloc (h : Heap) (a : Allocator) : Nat × Heap :=
  (h.next, { h with next := h.next + 1, live := (h.next, a) :: h.live })

/-- Release a block; releasing an address that is not live is an error. -/
def Heap.release (h : Heap) (r : Deallocator) (p : Nat) : Option Heap :=
  if (h.live.map Prod.fst).contains p then
    some { h with live := h.live.filter (fun e => e.1 != p),
                  released := (p, r) :: h.released }
  else none

/-- Every live address was handed out by this heap. -/
def Heap.WellFormed (h : Heap) : Prop := ∀ e ∈ h.live, e.1 < h.next

/-! ## Plan state -/

/-- A 1-D complex plan (`kiss_fft_cfg`). -/
structure kiss_fft_state where
  addr : Nat
  nfft : Nat
  inverse : Bool
  deriving DecidableEq, Repr

/-- An N-D complex plan (`kiss_fftnd_cfg`). -/
structure kiss_fftnd_state where
  addr : Nat
  dims : List Nat
  ndims : Nat
  inverse : Bool
  deriving DecidableEq, Repr

/-- A real-FFT plan (`kiss_fftr_cfg`). -/
structure kiss_fftr_state where
  addr : Nat
  nfft : Nat
  inverse : Bool
  deriving DecidableEq, Repr

/-- A block of floats obtained from `fftf_malloc`. -/
structure FloatBlock (α : Type) where
  addr : Nat
  size : Nat
  data : Nat → α

/-- The DCT plan state (`KissDCTInternalData`). -/
structure KissDCTInternalData (α : Type) where
  addr : Nat
  cfg : kiss_fftr_state
  input : FloatBlock α
  output : FloatBlock α

/-- What `instance->internalData` points to. -/
inductive InternalData (α : Type)
  | null
  | fft_cfg (p : kiss_fft_state)
  | fftnd_cfg (p : kiss_fftnd_state)
  | fftr_cfg (p : kiss_fftr_state)
  | dct (p : KissDCTInternalData α)

/-- Modelled from the spec: the structure `FFTFSingleInstance` of the interface
header, with the fields `engine_kiss.c` reads or writes. -/
structure FFTFSingleInstance (α : Type) where
  type : FFTFType
  direction : FFTFDirection
  dimension : FFTFDimension
  length : Nat
  lengths : List Nat
  input : Nat → α
  output : Nat → α
  internalData : InternalData α

/-! ## External primitives -/

/-- The functions `calc_kiss` calls but does not define.  Each FFT primitive
maps the plan, the source buffer and the previous contents of the destination
buffer to the new contents of the destination buffer. -/
structure Backend (α : Type) where
  cosf : α → α
  sinf : α → α
  kiss_fft : kiss_fft_state → (Nat → α) → (Nat → α) → (Nat → α)
  kiss_fftnd : kiss_fftnd_state → (Nat → α) → (Nat → α) → (Nat → α)
  kiss_fftr : kiss_fftr_state → (Nat → α) → (Nat → α) → (Nat → α)
  kiss_fftri : kiss_fftr_state → (Nat → α) → (Nat → α) → (Nat → α)

/-- The primitive a call of `calc_kiss` ran, with its plan and source buffer. -/
inductive PrimCall (α : Type)
  | kiss_fft (cfg : kiss_fft_state) (fin : Nat → α)
  | kiss_fftnd (cfg : kiss_fftnd_state) (fin : Nat → α)
  | kiss_fftr (cfg : kiss_fftr_state) (timedata : Nat → α)
  | kiss_fftri (cfg : kiss_fftr_state) (freqdata : Nat → α)

/-! ## Memory touched by the DCT paths -/

/-- The four float arrays of the DCT paths. -/
inductive Buf
  | instInput
  | instOutput
  | dctInput
  | dctOutput
  deriving DecidableEq, Repr

/-- What `calc_kiss` itself does to memory, and the integer divisors it uses. -/
inductive Event
  | read (b : Buf) (i : Nat)
  | write (b : Buf) (i : Nat)
  | divide (d : Nat)
  deriving DecidableEq, Repr

/-- Contents of the four arrays, and the events so far (latest first). -/
structure Mem (α : Type) where
  instInput : Nat → α
  instOutput : Nat → α
  dctInput : Nat → α
  dctOutput : Nat → α
  log : List Event

section Model

variable {α : Type}

/-- Contents of one array. -/
def Mem.get (m : Mem α) : Buf → Nat → α
  | .instInput => m.instInput
  | .instOutput => m.instOutput
  | .dctInput => m.dctInput
  | .dctOutput => m.dctOutput

/-- Load `b[i]`. -/
def Mem.read (m : Mem α) (b : Buf) (i : Nat) : α × Mem α :=
  (m.get b i, { m with log := Event.read b i :: m.log })

/-- Store `b[i] = v`. -/
def Mem.write (m : Mem α) (b : Buf) (i : Nat) (v : α) : Mem α :=
  match b with
  | .instInput =>
    { m with instInput := Function.update m.instInput i v, log := Event.write b i :: m.log }
  | .instOutput =>
    { m with instOutput := Function.update m.instOutput i v, log := Event.write b i :: m.log }
  | .dctInput =>
    { m with dctInput := Function.update m.dctInput i v, log := Event.write b i :: m.log }
  | .dctOutput =>
    { m with dctOutput := Function.update m.dctOutput i v, log := Event.write b i :: m.log }

/-- Float division `x / d` by an `int` divisor. -/
def Mem.fdiv [Field α] (m : Mem α) (x : α) (d : Nat) : α × Mem α :=
  (x / (d : α), { m with log := Event.divide d :: m.log })

/-- The C loop `for (int i = 0; i < n; i++) body`. -/
def forLoop {σ : Type} (n : Nat) (body : σ → Nat → σ) (s : σ) : σ :=
  (List.range n).foldl body s

/-- The call `memcpy(dst, src, n * sizeof(float))`. -/
def memcpy (dst src : Buf) (n : Nat) (m : Mem α) : Mem α :=
  forLoop n (fun m j => (m.read src j).2.write dst j (m.read src j).1) m

/-- Run a primitive call: the new contents of the destination buffer, given
its previous contents. -/
def PrimCall.run (K : Backend α) : PrimCall α → (Nat → α) → (Nat → α)
  | .kiss_fft cfg fin, prior => K.kiss_fft cfg fin prior
  | .kiss_fftnd cfg fin, prior => K.kiss_fftnd cfg fin prior
  | .kiss_fftr cfg timedata, prior => K.kiss_fftr cfg timedata prior
  | .kiss_fftri cfg freqdata, prior => K.kiss_fftri cfg freqdata prior

/-- The value of the literal `3.141592f`: the `float` nearest to `3.141592`,
with bit pattern `0x40490FD8`, that is `13176792 / 2^22 = 3.1415920257568359375`. -/
def PI_F [Field α] : α := 1647099 / 524288

/-! ## `init_kiss` -/

/-- The check `assert(cond)`: it aborts when `cond` fails, unless `NDEBUG`. -/
def c_assert (ndebug : Bool) (cond : Bool) : Option Unit :=
  if ndebug || cond then some () else none

/-- The function `init_kiss`.  `uninit a` is the indeterminate content of a fresh
block at address `a`; `I` is the range of `int`, in which `length * 2` and
`length * 2 + 2` are computed. -/
def init_kiss (I : IntRange) (ndebug : Bool) (uninit : Nat → Nat → α) (h : Heap)
    (inst : FFTFSingleInstance α) : Option (Heap × FFTFSingleInstance α) :=
  let inverse_fft : Bool := decide (inst.direction = .FFTF_DIRECTION_BACKWARD)
  match inst.type with
  | .FFTF_TYPE_COMPLEX =>
    if inst.dimension = .FFTF_DIMENSION_1D then
      let r := h.alloc .kiss_fft_alloc
      let cfg : kiss_fft_state := { addr := r.1, nfft := inst.length, inverse := inverse_fft }
      some (r.2, { inst with internalData := InternalData.fft_cfg cfg })
    else
      let r := h.alloc .kiss_fftnd_alloc
      let cfg : kiss_fftnd_state :=
        { addr := r.1, dims := inst.lengths, ndims := inst.dimension.ndims,
          inverse := inverse_fft }
      some (r.2, { inst with internalData := InternalData.fftnd_cfg cfg })
  | .FFTF_TYPE_REAL =>
    match c_assert ndebug (decide (inst.dimension = .FFTF_DIMENSION_1D)) with
    | none => none
    | some _ =>
      let r := h.alloc .kiss_fftr_alloc
      let cfg : kiss_fftr_state := { addr := r.1, nfft := inst.length, inverse := inverse_fft }
      some (r.2, { inst with internalData := InternalData.fftr_cfg cfg })
  | .FFTF_TYPE_DCT =>
    match c_assert ndebug (decide (inst.dimension = .FFTF_DIMENSION_1D)) with
    | none => none
    | some _ =>
      let dctd := h.alloc .malloc
      match I.eval (inst.length * 2) with
      | none => none
      | some nfft =>
        let cfg := dctd.2.alloc .kiss_fftr_alloc
        match I.eval (inst.length * 2 + 2) with
        | none => none
        | some size =>
          let input := cfg.2.alloc .fftf_malloc
          let output := input.2.alloc .fftf_malloc
          let d : KissDCTInternalData α :=
            { addr := dctd.1,
              cfg := { addr := cfg.1, nfft := nfft, inverse := inverse_fft },
              input := { addr := input.1, size := size, data := uninit input.1 },
              output := { addr := output.1, size := size, data := uninit output.1 } }
          some (output.2, { inst with internalData := InternalData.dct d })

/-! ## `calc_kiss` -/

/-- What a call of `calc_kiss` leaves behind: the instance, the primitive call it
ran (the one whose `run` produced the destination contents) and the accesses of
`calc_kiss` itself. -/
structure CalcResult (α : Type) where
  inst : FFTFSingleInstance α
  call : PrimCall α
  log : List Event

/-- Body of the first loop of the forward DCT:
`dctd->input[length + i] = instance->input[length - i - 1]`. -/
def dct_forward_mirror (length : Nat) (m : Mem α) (i : Nat) : Mem α :=
  let v := m.read .instInput (length - i - 1)
  v.2.write .dctInput (length + i) v.1

/-- The forward DCT up to the call of `kiss_fftr`: the `memcpy` of the input and
the loop that appends its mirror image. -/
def dct_forward_fill (length : Nat) (m : Mem α) : Mem α :=
  forLoop length (dct_forward_mirror length) (memcpy .dctInput .instInput length m)

/-- Body of the second loop of the forward DCT. -/
def dct_forward_twiddle [Field α] (c : α) (K : Backend α) (length : Nat)
    (m : Mem α) (i : Nat) : Mem α :=
  let yre := m.read .dctOutput (i * 2)
  let yim := yre.2.read .dctOutput (i * 2 + 1)
  let tmp := yim.2.fdiv (c * (i : α)) (2 * length)
  let wre := K.cosf tmp.1
  let wim := -K.sinf tmp.1
  tmp.2.write .instOutput i (wre * yre.1 - yim.1 * wim)

/-- Body of the first loop of the backward DCT. -/
def dct_backward_twiddle [Field α] (c : α) (K : Backend α) (length : Nat)
    (m : Mem α) (i : Nat) : Mem α :=
  let tmp := m.fdiv (c * (i : α)) (2 * length)
  let wre := K.cosf tmp.1
  let wim := K.sinf tmp.1
  let x1 := tmp.2.read .instInput i
  let yre := wre * x1.1
  let x2 := x1.2.read .instInput i
  let yim := wim * x2.1
  (x2.2.write .dctInput (i * 2) yre).write .dctInput (i * 2 + 1) yim

/-- The backward DCT up to the call of `kiss_fftri`: the packing loop and
`dctd->input[length] = dctd->input[length + 1] = 0`. -/
def dct_backward_fill [Field α] (c : α) (K : Backend α) (length : Nat) (m : Mem α) : Mem α :=
  ((forLoop length (dct_backward_twiddle c K length) m).write .dctInput (length + 1) 0).write
    .dctInput length 0

/-- The DCT plan state with the scratch buffers as `calc_kiss` left them. -/
def dct_store (dctd : KissDCTInternalData α) (m : Mem α) : KissDCTInternalData α :=
  { dctd with input := { dctd.input with data := m.dctInput },
              output := { dctd.output with data := m.dctOutput } }

/-- The four arrays on entry to the DCT case of `calc_kiss`. -/
def dctMem (inst : FFTFSingleInstance α) (dctd : KissDCTInternalData α) : Mem α :=
  { instInput := inst.input, instOutput := inst.output,
    dctInput := dctd.input.data, dctOutput := dctd.output.data, log := [] }

/-- The DCT case of `calc_kiss`, with `c` in place of the literal `3.141592f`. -/
def calc_dct [Field α] (c : α) (K : Backend α) (inst : FFTFSingleInstance α)
    (dctd : KissDCTInternalData α) : CalcResult α :=
  let length := inst.length
  let m0 := dctMem inst dctd
  if inst.direction = .FFTF_DIRECTION_FORWARD then
    let m1 := dct_forward_fill length m0
    let call := PrimCall.kiss_fftr dctd.cfg m1.dctInput
    let m2 := { m1 with dctOutput := call.run K m1.dctOutput }
    let m3 := forLoop length (dct_forward_twiddle c K length) m2
    { inst := { inst with
        output := m3.instOutput,
        internalData := InternalData.dct (dct_store dctd m3) },
      call := call,
      log := m3.log }
  else
    let m1 := dct_backward_fill c K length m0
    let call := PrimCall.kiss_fftri dctd.cfg m1.dctInput
    let m2 := { m1 with dctOutput := call.run K m1.dctOutput }
    let m3 := memcpy .instOutput .dctOutput length m2
    { inst := { inst with
        output := m3.instOutput,
        internalData := InternalData.dct (dct_store dctd m3) },
      call := call,
      log := m3.log }

/-- The result of a path of `calc_kiss` that only runs one primitive from the
caller's input to the caller's output. -/
def calc_direct (K : Backend α) (inst : FFTFSingleInstance α) (call : PrimCall α) :
    CalcResult α :=
  { inst := { inst with output := call.run K inst.output }, call := call, log := [] }

/-- The function `calc_kiss`, with `c` in place of the literal `3.141592f`.  The
result is `none` when `internalData` is not of the kind the cast assumes. -/
def calc_kiss_with [Field α] (c : α) (K : Backend α) (inst : FFTFSingleInstance α) :
    Option (CalcResult α) :=
  match inst.type with
  | .FFTF_TYPE_COMPLEX =>
    if inst.dimension = .FFTF_DIMENSION_1D then
      match inst.internalData with
      | .fft_cfg cfg => some (calc_direct K inst (.kiss_fft cfg inst.input))
      | _ => none
    else
      match inst.internalData with
      | .fftnd_cfg cfg => some (calc_direct K inst (.kiss_fftnd cfg inst.input))
      | _ => none
  | .FFTF_TYPE_REAL =>
    match inst.internalData with
    | .fftr_cfg cfg =>
      if inst.direction = .FFTF_DIRECTION_FORWARD then
        some (calc_direct K inst (.kiss_fftr cfg inst.input))
      else
        some (calc_direct K inst (.kiss_fftri cfg inst.input))
    | _ => none
  | .FFTF_TYPE_DCT =>
    match inst.internalData with
    | .dct dctd => some (calc_dct c K inst dctd)
    | _ => none

/-- The function `calc_kiss`. -/
def calc_kiss [Field α] (K : Backend α) (inst : FFTFSingleInstance α) :
    Option (CalcResult α) :=
  calc_kiss_with PI_F K inst

/-! ## `destroy_kiss` -/

/-- The address held by the pointer `instance->internalData`. -/
def InternalData.addr : InternalData α → Option Nat
  | .null => none
  | .fft_cfg p => some p.addr
  | .fftnd_cfg p => some p.addr
  | .fftr_cfg p => some p.addr
  | .dct p => some p.addr

/-- Modelled from the spec: `kiss_fftr`, which is not in the file under study,
taken as the exact `nfft`-point DFT of a real sequence.  Bin `k` for
`k = 0 .. nfft/2` is stored as the two floats `2k` (real part) and `2k+1`
(imaginary part) of the destination. -/
def exact_fftr [Field α] (cos sin : α → α) (pi : α) (cfg : kiss_fftr_state)
    (timedata prior : Nat → α) : Nat → α :=
  fun j =>
    if j < 2 * (cfg.nfft / 2 + 1) then
      if j % 2 = 0 then
        ∑ n in Finset.range cfg.nfft,
          timedata n * cos (2 * pi * (n : α) * ((j / 2 : Nat) : α) / (cfg.nfft : α))
      else
        -∑ n in Finset.range cfg.nfft,
          timedata n * sin (2 * pi * (n : α) * ((j / 2 : Nat) : α) / (cfg.nfft : α))
    else prior j

/-- Modelled from the spec: `kiss_fftri`, which is not in the file under study,
taken as the exact unnormalised `nfft`-point inverse real DFT.  It reads bins
`0 .. nfft/2` of the source (the real parts only of bins `0` and `nfft/2`),
extends them by Hermitian symmetry and writes `nfft` floats. -/
def exact_fftri [Field α] (cos sin : α → α) (pi : α) (cfg : kiss_fftr_state)
    (freqdata prior : Nat → α) : Nat → α :=
  fun n =>
    if n < cfg.nfft then
      freqdata 0 + cos (pi * (n : α)) * freqdata (2 * (cfg.nfft / 2))
        + 2 * ∑ k in Finset.Ico 1 (cfg.nfft / 2),
            (freqdata (2 * k) * cos (2 * pi * (k : α) * (n : α) / (cfg.nfft : α))
              - freqdata (2 * k + 1) * sin (2 * pi * (k : α) * (n : α) / (cfg.nfft : α)))
    else prior n

/-- The backend in which `cosf`, `sinf`, `kiss_fftr` and `kiss_fftri` are exact;
the complex primitives, which the DCT paths never call, are left open. -/
def exactBackend [Field α] (cos sin : α → α) (pi : α)
    (cfft : kiss_fft_state → (Nat → α) → (Nat → α) → (Nat → α))
    (cfftnd : kiss_fftnd_state → (Nat → α) → (Nat → α) → (Nat → α)) : Backend α :=
  { cosf := cos, sinf := sin, kiss_fft := cfft, kiss_fftnd := cfftnd,
    kiss_fftr := exact_fftr cos sin pi, kiss_fftri := exact_fftri cos sin pi }

/-- The unnormalised DCT-II, `2 * sum_{n<N} x[n] cos(pi k (2n+1) / (2N))`. -/
def dct2 [Field α] (cos : α → α) (pi : α) (N : Nat) (x : Nat → α) (k : Nat) : α :=
  2 * ∑ n in Finset.range N, x n * cos (pi * (k : α) * (2 * (n : α) + 1) / (2 * (N : α)))

/-- The unnormalised DCT-III, `x[0] + 2 * sum_{1<=k<N} x[k] cos(pi k (2n+1) / (2N))`. -/
def dct3 [Field α] (cos : α → α) (pi : α) (N : Nat) (x : Nat → α) (n : Nat) : α :=
  x 0 + 2 * ∑ k in Finset.Ico 1 N, x k * cos (pi * (k : α) * (2 * (n : α) + 1) / (2 * (N : α)))

/-- A DCT instance of length `N` on input `x`, before `init_kiss`. -/
def dctInstance (dir : FFTFDirection) (N : Nat) (x out : Nat → α) : FFTFSingleInstance α :=
  { type := .FFTF_TYPE_DCT, direction := dir, dimension := .FFTF_DIMENSION_1D, length := N,
    lengths := [N], input := x, output := out, internalData := .null }

/-- The 1-D complex plan `init_kiss` builds on heap `h` for length `N`. -/
def complexPlan (h : Heap) (N : Nat) (inverse_fft : Bool) : kiss_fft_state :=
  { addr := h.next, nfft := N, inverse := inverse_fft }

/-- The N-D complex plan `init_kiss` builds on heap `h`. -/
def ndPlan (h : Heap) (dims : List Nat) (ndims : Nat) (inverse_fft : Bool) : kiss_fftnd_state :=
  { addr := h.next, dims := dims, ndims := ndims, inverse := inverse_fft }

/-- The real plan `init_kiss` builds on heap `h` for length `N`. -/
def realPlan (h : Heap) (N : Nat) (inverse_fft : Bool) : kiss_fftr_state :=
  { addr := h.next, nfft := N, inverse := inverse_fft }

/-- The DCT plan state `init_kiss` builds on heap `h` for length `N`. -/
def dctPlan (uninit : Nat → Nat → α) (h : Heap) (N : Nat) (inverse_fft : Bool) :
    KissDCTInternalData α :=
  { addr := h.next,
    cfg := { addr := h.next + 1, nfft := N * 2, inverse := inverse_fft },
    input := { addr := h.next + 2, size := N * 2 + 2, data := uninit (h.next + 2) },
    output := { addr := h.next + 3, size := N * 2 + 2, data := uninit (h.next + 3) } }

/-- The index range `calc_kiss` may touch in each array, and the divisor it may
use: the caller's arrays hold `N` floats, the scratch arrays `inSize` and
`outSize` floats, and a divisor must not be zero. -/
def Event.InBounds (N inSize outSize : Nat) : Event → Prop
  | .read .instInput i => i < N
  | .read .instOutput i => i < N
  | .read .dctInput i => i < inSize
  | .read .dctOutput i => i < outSize
  | .write .instInput i => i < N
  | .write .instOutput i => i < N
  | .write .dctInput i => i < inSize
  | .write .dctOutput i => i < outSize
  | .divide d => d ≠ 0

/-- The integer an event computes: the array index or the divisor. -/
def Event.operand : Event → Nat
  | .read _ i => i
  | .write _ i => i
  | .divide d => d

/-- The heap before any allocation. -/
def emptyHeap : Heap := { next := 0, live := [], released := [] }

/-- The sequence that is `1` at index `i` and `0` elsewhere. -/
def unitImpulse [Field α] (i : Nat) : Nat → α := fun n => if n = i then 1 else 0

/-- A primitive that leaves its destination untouched; it stands in for the
complex primitives where they are never called. -/
def idlePrimitive {κ : Type} : κ → (Nat → α) → (Nat → α) → (Nat → α) := fun _ _ prior => prior

/-- A backend whose FFT primitives leave the destination untouched and whose
`cosf` and `sinf` are constant. -/
def idleBackend [Field α] : Backend α :=
  { cosf := fun _ => 1, sinf := fun _ => 0, kiss_fft := idlePrimitive,
    kiss_fftnd := idlePrimitive, kiss_fftr := idlePrimitive, kiss_fftri := idlePrimitive }

/-- A backend whose four FFT primitives write four different constants, so
that the destination shows which primitive ran. -/
def markBackend [Field α] : Backend α :=
  { cosf := fun _ => 1, sinf := fun _ => 0, kiss_fft := fun _ _ _ _ => 1,
    kiss_fftnd := fun _ _ _ _ => 2, kiss_fftr := fun _ _ _ _ => 3,
    kiss_fftri := fun _ _ _ _ => 4 }

/-- The input sequence `1, 2, 3, ...`. -/
def rampInput [Field α] : Nat → α := fun n => (n : α) + 1

/-- The sequence `rampInput` with entry `1` replaced by `7`. -/
def rampInputAlt [Field α] : Nat → α := fun n => if n = 1 then 7 else (n : α) + 1

/-- Fresh-block contents that differ from address to address and index to index. -/
def sampleUninit [Field α] : Nat → Nat → α := fun a j => ((a + j : Nat) : α)

/-- The two-point DCT instance on the input `[1, 2]`, before `init_kiss`. -/
def sampleDCT [Field α] (dir : FFTFDirection) : FFTFSingleInstance α :=
  dctInstance dir 2 rampInput (fun _ => 0)

/-- The two-point backward DCT instance on `[1, 2]` with a zero-filled plan. -/
def sampleBackward [Field α] : FFTFSingleInstance α :=
  { type := .FFTF_TYPE_DCT, direction := .FFTF_DIRECTION_BACKWARD,
    dimension := .FFTF_DIMENSION_1D, length := 2, lengths := [2],
    input := rampInput, output := fun _ => 0,
    internalData := InternalData.dct (dctPlan (fun _ _ => 0) emptyHeap 2 true) }

/-- A 1-D real backward instance of length `4`, before `init_kiss`. -/
def sampleReal [Field α] : FFTFSingleInstance α :=
  { type := .FFTF_TYPE_REAL, direction := .FFTF_DIRECTION_BACKWARD,
    dimension := .FFTF_DIMENSION_1D, length := 4, lengths := [4],
    input := fun _ => 0, output := fun _ => 0, internalData := .null }

end Model

/-! ## Memory lemmas -/

section MemoryLemmas

variable {α : Type}

theorem IntRange.eval_eq (I : IntRange) (n : Nat) : I.eval n = some n ∨ I.eval n = none := by
  unfold IntRange.eval
  split
  · exact Or.inl rfl
  · split
    · exact Or.inl rfl
    · exact Or.inr rfl

theorem IntRange.Fits.mono {I : IntRange} {m n : Nat} (hm : I.Fits m) (hnm : n ≤ m) :
    I.Fits n := by
  unfold IntRange.Fits IntRange.eval at *
  split
  · rfl
  · rename_i M hM
    rw [hM] at hm
    simp only at hm
    split at hm
    · rw [if_pos (by omega)]
    · exact absurd hm (by simp)

theorem IntRange.fits_unbounded (n : Nat) : IntRange.unbounded.Fits n := rfl

theorem IntRange.fits_int32 (n : Nat) : IntRange.int32.Fits n ↔ n ≤ 2147483647 := by
  unfold IntRange.Fits IntRange.eval IntRange.int32
  simp

theorem IntRange.not_fits {I : IntRange} {n : Nat} (hn : ¬ I.Fits n) : I.eval n = none := by
  rcases I.eval_eq n with h | h
  · exact absurd h hn
  · exact h

theorem forLoop_zero {σ : Type} (body : σ → Nat → σ) (s : σ) : forLoop 0 body s = s := by
  simp [forLoop]

theorem forLoop_succ {σ : Type} (n : Nat) (body : σ → Nat → σ) (s : σ) :
    forLoop (n + 1) body s = body (forLoop n body s) n := by
  simp [forLoop, List.range_succ]

theorem Mem.get_write (m : Mem α) (b b' : Buf) (i j : Nat) (v : α) :
    (m.write b i v).get b' j = if b' = b ∧ j = i then v else m.get b' j := by
  cases b <;> cases b' <;> simp [Mem.write, Mem.get, Function.update_apply]

theorem Mem.log_write (m : Mem α) (b : Buf) (i : Nat) (v : α) :
    (m.write b i v).log = Event.write b i :: m.log := by
  cases b <;> rfl

theorem Mem.get_read (m : Mem α) (b b' : Buf) (i : Nat) :
    (m.read b i).2.get b' = m.get b' := by
  cases b' <;> rfl

theorem Mem.val_read (m : Mem α) (b : Buf) (i : Nat) : (m.read b i).1 = m.get b i := rfl

theorem Mem.log_read (m : Mem α) (b : Buf) (i : Nat) :
    (m.read b i).2.log = Event.read b i :: m.log := rfl

theorem Mem.get_fdiv [Field α] (m : Mem α) (x : α) (d : Nat) (b : Buf) :
    (m.fdiv x d).2.get b = m.get b := by
  cases b <;> rfl

theorem Mem.val_fdiv [Field α] (m : Mem α) (x : α) (d : Nat) :
    (m.fdiv x d).1 = x / (d : α) := rfl

theorem Mem.log_fdiv [Field α] (m : Mem α) (x : α) (d : Nat) :
    (m.fdiv x d).2.log = Event.divide d :: m.log := rfl

theorem memcpy_zero (dst src : Buf) (m : Mem α) : memcpy dst src 0 m = m := rfl

theorem memcpy_succ (dst src : Buf) (n : Nat) (m : Mem α) :
    memcpy dst src (n + 1) m
      = ((memcpy dst src n m).read src n).2.write dst n ((memcpy dst src n m).read src n).1 :=
  forLoop_succ n _ m

theorem memcpy_get (dst src : Buf) (hne : src ≠ dst) (n : Nat) (m : Mem α) (b : Buf) (j : Nat) :
    (memcpy dst src n m).get b j = if b = dst ∧ j < n then m.get src j else m.get b j := by
  induction n generalizing b j with
  | zero => simp [memcpy_zero]
  | succ n ih =>
    rw [memcpy_succ]
    simp only [Mem.get_write, Mem.get_read, Mem.val_read, ih]
    by_cases hb : b = dst
    · subst hb
      by_cases hj : j = n
      · subst hj; simp [hne]
      · have : (j < n + 1) = (j < n) := by
          apply propext; omega
        simp [hj, this]
    · simp [hb]

theorem memcpy_log (dst src : Buf) (n : Nat) (m : Mem α) :
    ∀ e ∈ (memcpy dst src n m).log,
      e ∈ m.log ∨ ∃ j, j < n ∧ (e = Event.read src j ∨ e = Event.write dst j) := by
  induction n with
  | zero => intro e he; left; simpa [memcpy_zero] using he
  | succ n ih =>
    rw [memcpy_succ]
    intro e he
    simp only [Mem.log_write, Mem.log_read, List.mem_cons] at he
    rcases he with he | he | he
    · right; exact ⟨n, by omega, Or.inr he⟩
    · right; exact ⟨n, by omega, Or.inl he⟩
    · rcases ih e he with h | ⟨j, hj, h⟩
      · left; exact h
      · right; exact ⟨j, by omega, h⟩

theorem mirror_loop_get (L n : Nat) (m : Mem α) (b : Buf) (j : Nat) :
    (forLoop n (dct_forward_mirror L) m).get b j
      = if b = .dctInput ∧ L ≤ j ∧ j < L + n then m.get .instInput (L - (j - L) - 1)
        else m.get b j := by
  induction n generalizing b j with
  | zero =>
    have : ¬ (L ≤ j ∧ j < L) := by omega
    simp [forLoop_zero, this]
  | succ n ih =>
    rw [forLoop_succ]
    simp only [dct_forward_mirror, Mem.get_write, Mem.get_read, Mem.val_read, ih]
    by_cases hb : b = .dctInput
    · subst hb
      by_cases hj : j = L + n
      · subst hj
        have h1 : L ≤ L + n ∧ L + n < L + (n + 1) := by omega
        have h2 : L + n - L = n := by omega
        simp [h1, h2]
      · have : (L ≤ j ∧ j < L + (n + 1)) = (L ≤ j ∧ j < L + n) := by
          apply propext; omega
        simp [hj, this]
    · simp [hb]

theorem mirror_loop_log (L n : Nat) (m : Mem α) :
    ∀ e ∈ (forLoop n (dct_forward_mirror L) m).log,
      e ∈ m.log ∨ ∃ i, i < n ∧
        (e = Event.read .instInput (L - i - 1) ∨ e = Event.write .dctInput (L + i)) := by
  induction n with
  | zero => intro e he; left; simpa [forLoop_zero] using he
  | succ n ih =>
    rw [forLoop_succ]
    intro e he
    simp only [dct_forward_mirror, Mem.log_write, Mem.log_read, List.mem_cons] at he
    rcases he with he | he | he
    · right; exact ⟨n, by omega, Or.inr he⟩
    · right; exact ⟨n, by omega, Or.inl he⟩
    · rcases ih e he with h | ⟨j, hj, h⟩
      · left; exact h
      · right; exact ⟨j, by omega, h⟩

theorem forward_fill_get (N : Nat) (m : Mem α) (b : Buf) (j : Nat) :
    (dct_forward_fill N m).get b j
      = if b = .dctInput ∧ j < 2 * N then
          (if j < N then m.get .instInput j else m.get .instInput (2 * N - 1 - j))
        else m.get b j := by
  unfold dct_forward_fill
  rw [mirror_loop_get]
  have hne : Buf.instInput ≠ Buf.dctInput := by decide
  simp only [memcpy_get _ _ hne]
  by_cases hb : b = .dctInput
  · subst hb
    by_cases h1 : j < N
    · have h2 : ¬ (N ≤ j ∧ j < N + N) := by omega
      have h3 : j < 2 * N := by omega
      simp [h1, h2, h3]
    · by_cases h2 : j < 2 * N
      · have h3 : N ≤ j ∧ j < N + N := by omega
        have h4 : N - (j - N) - 1 = 2 * N - 1 - j := by omega
        simp [h1, h2, h3, h4]
      · have h3 : ¬ (N ≤ j ∧ j < N + N) := by omega
        simp [h1, h2, h3]
  · simp [hb]

theorem forward_twiddle_loop_get [Field α] (c : α) (K : Backend α) (L n : Nat) (m : Mem α)
    (b : Buf) (k : Nat) :
    (forLoop n (dct_forward_twiddle c K L) m).get b k
      = if b = .instOutput ∧ k < n then
          K.cosf (c * (k : α) / ((2 * L : Nat) : α)) * m.get .dctOutput (k * 2)
            - m.get .dctOutput (k * 2 + 1) * -K.sinf (c * (k : α) / ((2 * L : Nat) : α))
        else m.get b k := by
  induction n generalizing b k with
  | zero => simp [forLoop_zero]
  | succ n ih =>
    rw [forLoop_succ]
    simp only [dct_forward_twiddle, Mem.get_write, Mem.get_read, Mem.val_read, Mem.get_fdiv,
      Mem.val_fdiv, ih]
    by_cases hb : b = .instOutput
    · subst hb
      by_cases hk : k = n
      · subst hk; simp
      · have : (k < n + 1) = (k < n) := by
          apply propext; omega
        simp [hk, this]
    · simp [hb]

theorem forward_twiddle_loop_log [Field α] (c : α) (K : Backend α) (L n : Nat) (m : Mem α) :
    ∀ e ∈ (forLoop n (dct_forward_twiddle c K L) m).log,
      e ∈ m.log ∨ ∃ i, i < n ∧
        (e = Event.read .dctOutput (i * 2) ∨ e = Event.read .dctOutput (i * 2 + 1)
          ∨ e = Event.divide (2 * L) ∨ e = Event.write .instOutput i) := by
  induction n with
  | zero => intro e he; left; simpa [forLoop_zero] using he
  | succ n ih =>
    rw [forLoop_succ]
    intro e he
    simp only [dct_forward_twiddle, Mem.log_write, Mem.log_read, Mem.log_fdiv,
      List.mem_cons] at he
    rcases he with he | he | he | he | he
    · right; exact ⟨n, by omega, Or.inr (Or.inr (Or.inr he))⟩
    · right; exact ⟨n, by omega, Or.inr (Or.inr (Or.inl he))⟩
    · right; exact ⟨n, by omega, Or.inr (Or.inl he)⟩
    · right; exact ⟨n, by omega, Or.inl he⟩
    · rcases ih e he with h | ⟨j, hj, h⟩
      · left; exact h
      · right; exact ⟨j, by omega, h⟩

theorem backward_twiddle_loop_get [Field α] (c : α) (K : Backend α) (L n : Nat) (m : Mem α)
    (b : Buf) (j : Nat) :
    (forLoop n (dct_backward_twiddle c K L) m).get b j
      = if b = .dctInput ∧ j < 2 * n then
          (if j % 2 = 0 then
            K.cosf (c * ((j / 2 : Nat) : α) / ((2 * L : Nat) : α)) * m.get .instInput (j / 2)
          else
            K.sinf (c * ((j / 2 : Nat) : α) / ((2 * L : Nat) : α)) * m.get .instInput (j / 2))
        else m.get b j := by
  induction n generalizing b j with
  | zero => simp [forLoop_zero]
  | succ n ih =>
    rw [forLoop_succ]
    simp only [dct_backward_twiddle, Mem.get_write, Mem.get_read, Mem.val_read, Mem.get_fdiv,
      Mem.val_fdiv, ih]
    by_cases hb : b = .dctInput
    · subst hb
      by_cases h1 : j = n * 2 + 1
      · subst h1
        have h2 : n * 2 + 1 < 2 * (n + 1) := by omega
        have h3 : (n * 2 + 1) % 2 = 1 := by omega
        have h4 : (n * 2 + 1) / 2 = n := by omega
        simp [h2, h3, h4]
      · by_cases h2 : j = n * 2
        · subst h2
          have h3 : n * 2 < 2 * (n + 1) := by omega
          have h4 : n * 2 % 2 = 0 := by omega
          have h5 : n * 2 / 2 = n := by omega
          simp [h3, h4, h5]
        · have : (j < 2 * (n + 1)) = (j < 2 * n) := by
            apply propext; omega
          simp [h1, h2, this]
    · simp [hb]

theorem backward_twiddle_loop_log [Field α] (c : α) (K : Backend α) (L n : Nat) (m : Mem α) :
    ∀ e ∈ (forLoop n (dct_backward_twiddle c K L) m).log,
      e ∈ m.log ∨ ∃ i, i < n ∧
        (e = Event.divide (2 * L) ∨ e = Event.read .instInput i
          ∨ e = Event.write .dctInput (i * 2) ∨ e = Event.write .dctInput (i * 2 + 1)) := by
  induction n with
  | zero => intro e he; left; simpa [forLoop_zero] using he
  | succ n ih =>
    rw [forLoop_succ]
    intro e he
    simp only [dct_backward_twiddle, Mem.log_write, Mem.log_read, Mem.log_fdiv,
      List.mem_cons] at he
    rcases he with he | he | he | he | he | he
    · right; exact ⟨n, by omega, Or.inr (Or.inr (Or.inr he))⟩
    · right; exact ⟨n, by omega, Or.inr (Or.inr (Or.inl he))⟩
    · right; exact ⟨n, by omega, Or.inr (Or.inl he)⟩
    · right; exact ⟨n, by omega, Or.inr (Or.inl he)⟩
    · right; exact ⟨n, by omega, Or.inl he⟩
    · rcases ih e he with h | ⟨j, hj, h⟩
      · left; exact h
      · right; exact ⟨j, by omega, h⟩

theorem forward_fill_log (N : Nat) (m : Mem α) :
    ∀ e ∈ (dct_forward_fill N m).log,
      e ∈ m.log ∨ ∃ i, i < N ∧
        (e = Event.read .instInput i ∨ e = Event.write .dctInput i
          ∨ e = Event.read .instInput (N - i - 1) ∨ e = Event.write .dctInput (N + i)) := by
  intro e he
  rcases mirror_loop_log N N _ e he with h | ⟨i, hi, h | h⟩
  · rcases memcpy_log _ _ N m e h with h | ⟨i, hi, h | h⟩
    · left; exact h
    · right; exact ⟨i, hi, Or.inl h⟩
    · right; exact ⟨i, hi, Or.inr (Or.inl h)⟩
  · right; exact ⟨i, hi, Or.inr (Or.inr (Or.inl h))⟩
  · right; exact ⟨i, hi, Or.inr (Or.inr (Or.inr h))⟩

theorem backward_fill_get [Field α] (c : α) (K : Backend α) (N : Nat) (m : Mem α)
    (b : Buf) (j : Nat) :
    (dct_backward_fill c K N m).get b j
      = if b = .dctInput ∧ (j = N ∨ j = N + 1) then 0
        else if b = .dctInput ∧ j < 2 * N then
          (if j % 2 = 0 then
            K.cosf (c * ((j / 2 : Nat) : α) / ((2 * N : Nat) : α)) * m.get .instInput (j / 2)
          else
            K.sinf (c * ((j / 2 : Nat) : α) / ((2 * N : Nat) : α)) * m.get .instInput (j / 2))
        else m.get b j := by
  unfold dct_backward_fill
  simp only [Mem.get_write, backward_twiddle_loop_get]
  by_cases hb : b = .dctInput
  · subst hb
    by_cases h1 : j = N
    · simp [h1]
    · by_cases h2 : j = N + 1
      · simp [h2]
      · simp [h1, h2]
  · simp [hb]

theorem backward_fill_log [Field α] (c : α) (K : Backend α) (N : Nat) (m : Mem α) :
    ∀ e ∈ (dct_backward_fill c K N m).log,
      e ∈ m.log ∨ e = Event.write .dctInput N ∨ e = Event.write .dctInput (N + 1)
        ∨ ∃ i, i < N ∧
          (e = Event.divide (2 * N) ∨ e = Event.read .instInput i
            ∨ e = Event.write .dctInput (i * 2) ∨ e = Event.write .dctInput (i * 2 + 1)) := by
  intro e he
  unfold dct_backward_fill at he
  simp only [Mem.log_write, List.mem_cons] at he
  rcases he with he | he | he
  · right; left; exact he
  · right; right; left; exact he
  · rcases backward_twiddle_loop_log c K N N m e he with h | h
    · left; exact h
    · right; right; right; exact h

theorem calc_dct_forward_call [Field α] (c : α) (K : Backend α) (inst : FFTFSingleInstance α)
    (d : KissDCTInternalData α) (hdir : inst.direction = .FFTF_DIRECTION_FORWARD) :
    (calc_dct c K inst d).call
      = .kiss_fftr d.cfg (dct_forward_fill inst.length (dctMem inst d)).dctInput := by
  simp [calc_dct, PrimCall.run, hdir]

theorem calc_dct_forward_output [Field α] (c : α) (K : Backend α)
    (inst : FFTFSingleInstance α) (d : KissDCTInternalData α)
    (hdir : inst.direction = .FFTF_DIRECTION_FORWARD) (k : Nat) :
    (calc_dct c K inst d).inst.output k
      = if k < inst.length then
          K.cosf (c * (k : α) / ((2 * inst.length : Nat) : α))
              * K.kiss_fftr d.cfg (dct_forward_fill inst.length (dctMem inst d)).dctInput
                  d.output.data (k * 2)
            - K.kiss_fftr d.cfg (dct_forward_fill inst.length (dctMem inst d)).dctInput
                  d.output.data (k * 2 + 1)
              * -K.sinf (c * (k : α) / ((2 * inst.length : Nat) : α))
        else inst.output k := by
  have hout : (dct_forward_fill inst.length (dctMem inst d)).dctOutput = d.output.data := by
    funext j
    have := forward_fill_get inst.length (dctMem inst d) .dctOutput j
    simpa [Mem.get, dctMem] using this
  have hio : (dct_forward_fill inst.length (dctMem inst d)).instOutput = inst.output := by
    funext j
    have := forward_fill_get inst.length (dctMem inst d) .instOutput j
    simpa [Mem.get, dctMem] using this
  have := forward_twiddle_loop_get c K inst.length inst.length
    { dct_forward_fill inst.length (dctMem inst d) with
      dctOutput := K.kiss_fftr d.cfg (dct_forward_fill inst.length (dctMem inst d)).dctInput
        (dct_forward_fill inst.length (dctMem inst d)).dctOutput } .instOutput k
  simp only [Mem.get, true_and, hout] at this
  simp only [calc_dct, PrimCall.run, hdir, if_true, hout]
  rw [this, hio]

theorem calc_dct_forward_log [Field α] (c : α) (K : Backend α) (inst : FFTFSingleInstance α)
    (d : KissDCTInternalData α) (hdir : inst.direction = .FFTF_DIRECTION_FORWARD) :
    ∀ e ∈ (calc_dct c K inst d).log, ∃ i, i < inst.length ∧
      (e = Event.read .instInput i ∨ e = Event.write .dctInput i
        ∨ e = Event.read .instInput (inst.length - i - 1)
        ∨ e = Event.write .dctInput (inst.length + i)
        ∨ e = Event.read .dctOutput (i * 2) ∨ e = Event.read .dctOutput (i * 2 + 1)
        ∨ e = Event.divide (2 * inst.length) ∨ e = Event.write .instOutput i) := by
  intro e he
  simp only [calc_dct, PrimCall.run, hdir, if_true] at he
  rcases forward_twiddle_loop_log c K inst.length inst.length _ e he with h | ⟨i, hi, h⟩
  · rcases forward_fill_log inst.length (dctMem inst d) e h with h | ⟨i, hi, h⟩
    · simp [dctMem] at h
    · refine ⟨i, hi, ?_⟩
      rcases h with h | h | h | h
      · exact Or.inl h
      · exact Or.inr (Or.inl h)
      · exact Or.inr (Or.inr (Or.inl h))
      · exact Or.inr (Or.inr (Or.inr (Or.inl h)))
  · refine ⟨i, hi, ?_⟩
    rcases h with h | h | h | h
    · exact Or.inr (Or.inr (Or.inr (Or.inr (Or.inl h))))
    · exact Or.inr (Or.inr (Or.inr (Or.inr (Or.inr (Or.inl h)))))
    · exact Or.inr (Or.inr (Or.inr (Or.inr (Or.inr (Or.inr (Or.inl h))))))
    · exact Or.inr (Or.inr (Or.inr (Or.inr (Or.inr (Or.inr (Or.inr h))))))

theorem backward_fill_dctOutput [Field α] (c : α) (K : Backend α) (N : Nat) (m : Mem α) :
    (dct_backward_fill c K N m).dctOutput = m.dctOutput := by
  funext j
  have := backward_fill_get c K N m .dctOutput j
  simpa [Mem.get] using this

theorem backward_fill_instOutput [Field α] (c : α) (K : Backend α) (N : Nat) (m : Mem α) :
    (dct_backward_fill c K N m).instOutput = m.instOutput := by
  funext j
  have := backward_fill_get c K N m .instOutput j
  simpa [Mem.get] using this

theorem calc_dct_backward_call [Field α] (c : α) (K : Backend α) (inst : FFTFSingleInstance α)
    (d : KissDCTInternalData α) (hdir : inst.direction = .FFTF_DIRECTION_BACKWARD) :
    (calc_dct c K inst d).call
      = .kiss_fftri d.cfg (dct_backward_fill c K inst.length (dctMem inst d)).dctInput := by
  simp [calc_dct, PrimCall.run, hdir]

theorem calc_dct_backward_output [Field α] (c : α) (K : Backend α)
    (inst : FFTFSingleInstance α) (d : KissDCTInternalData α)
    (hdir : inst.direction = .FFTF_DIRECTION_BACKWARD) (n : Nat) :
    (calc_dct c K inst d).inst.output n
      = if n < inst.length then
          K.kiss_fftri d.cfg (dct_backward_fill c K inst.length (dctMem inst d)).dctInput
            d.output.data n
        else inst.output n := by
  have hne : Buf.dctOutput ≠ Buf.instOutput := by decide
  have := memcpy_get .instOutput .dctOutput hne inst.length
    { dct_backward_fill c K inst.length (dctMem inst d) with
      dctOutput := K.kiss_fftri d.cfg
        (dct_backward_fill c K inst.length (dctMem inst d)).dctInput
        (dct_backward_fill c K inst.length (dctMem inst d)).dctOutput } .instOutput n
  have hdir' : ¬ inst.direction = .FFTF_DIRECTION_FORWARD := by simp [hdir]
  simp only [Mem.get, true_and, backward_fill_dctOutput] at this
  simp only [calc_dct, PrimCall.run, hdir', if_false, backward_fill_dctOutput]
  rw [this, backward_fill_instOutput]
  rfl

theorem calc_dct_backward_scratch [Field α] (c : α) (K : Backend α)
    (inst : FFTFSingleInstance α) (d : KissDCTInternalData α)
    (hdir : inst.direction = .FFTF_DIRECTION_BACKWARD) :
    ∃ d', (calc_dct c K inst d).inst.internalData = .dct d' ∧ d'.input.addr = d.input.addr
      ∧ d'.input.size = d.input.size
      ∧ d'.input.data = (dct_backward_fill c K inst.length (dctMem inst d)).dctInput
      ∧ d'.output.data
          = K.kiss_fftri d.cfg (dct_backward_fill c K inst.length (dctMem inst d)).dctInput
              d.output.data := by
  have hne : Buf.dctOutput ≠ Buf.instOutput := by decide
  have hdir' : ¬ inst.direction = .FFTF_DIRECTION_FORWARD := by simp [hdir]
  simp only [calc_dct, PrimCall.run, hdir', if_false]
  refine ⟨_, rfl, rfl, rfl, ?_, ?_⟩
  · funext j
    have := memcpy_get .instOutput .dctOutput hne inst.length
      { dct_backward_fill c K inst.length (dctMem inst d) with
        dctOutput := K.kiss_fftri d.cfg
          (dct_backward_fill c K inst.length (dctMem inst d)).dctInput
          (dct_backward_fill c K inst.length (dctMem inst d)).dctOutput } .dctInput j
    simpa [Mem.get, dct_store] using this
  · funext j
    have := memcpy_get .instOutput .dctOutput hne inst.length
      { dct_backward_fill c K inst.length (dctMem inst d) with
        dctOutput := K.kiss_fftri d.cfg
          (dct_backward_fill c K inst.length (dctMem inst d)).dctInput
          (dct_backward_fill c K inst.length (dctMem inst d)).dctOutput } .dctOutput j
    simpa [Mem.get, dct_store, backward_fill_dctOutput, dctMem] using this

theorem calc_dct_forward_scratch [Field α] (c : α) (K : Backend α)
    (inst : FFTFSingleInstance α) (d : KissDCTInternalData α)
    (hdir : inst.direction = .FFTF_DIRECTION_FORWARD) :
    ∃ d', (calc_dct c K inst d).inst.internalData = .dct d'
      ∧ d'.input.data = (dct_forward_fill inst.length (dctMem inst d)).dctInput
      ∧ d'.output.data
          = K.kiss_fftr d.cfg (dct_forward_fill inst.length (dctMem inst d)).dctInput
              d.output.data := by
  have hout : (dct_forward_fill inst.length (dctMem inst d)).dctOutput = d.output.data := by
    funext j
    have := forward_fill_get inst.length (dctMem inst d) .dctOutput j
    simpa [Mem.get, dctMem] using this
  simp only [calc_dct, PrimCall.run, hdir, if_true]
  refine ⟨_, rfl, ?_, ?_⟩
  · funext j
    have := forward_twiddle_loop_get c K inst.length inst.length
      { dct_forward_fill inst.length (dctMem inst d) with
        dctOutput := K.kiss_fftr d.cfg (dct_forward_fill inst.length (dctMem inst d)).dctInput
          (dct_forward_fill inst.length (dctMem inst d)).dctOutput } .dctInput j
    simpa [Mem.get, dct_store] using this
  · funext j
    have := forward_twiddle_loop_get c K inst.length inst.length
      { dct_forward_fill inst.length (dctMem inst d) with
        dctOutput := K.kiss_fftr d.cfg (dct_forward_fill inst.length (dctMem inst d)).dctInput
          (dct_forward_fill inst.length (dctMem inst d)).dctOutput } .dctOutput j
    simpa [Mem.get, dct_store, hout] using this

theorem calc_dct_backward_log [Field α] (c : α) (K : Backend α) (inst : FFTFSingleInstance α)
    (d : KissDCTInternalData α) (hdir : inst.direction = .FFTF_DIRECTION_BACKWARD) :
    ∀ e ∈ (calc_dct c K inst d).log,
      e = Event.write .dctInput inst.length ∨ e = Event.write .dctInput (inst.length + 1)
        ∨ ∃ i, i < inst.length ∧
          (e = Event.divide (2 * inst.length) ∨ e = Event.read .instInput i
            ∨ e = Event.write .dctInput (i * 2) ∨ e = Event.write .dctInput (i * 2 + 1)
            ∨ e = Event.read .dctOutput i ∨ e = Event.write .instOutput i) := by
  intro e he
  have hdir' : ¬ inst.direction = .FFTF_DIRECTION_FORWARD := by simp [hdir]
  simp only [calc_dct, PrimCall.run, hdir', if_false] at he
  rcases memcpy_log _ _ inst.length _ e he with h | ⟨i, hi, h⟩
  · rcases backward_fill_log c K inst.length (dctMem inst d) e h with h | h | h | ⟨i, hi, h⟩
    · simp [dctMem] at h
    · exact Or.inl h
    · exact Or.inr (Or.inl h)
    · refine Or.inr (Or.inr ⟨i, hi, ?_⟩)
      rcases h with h | h | h | h
      · exact Or.inl h
      · exact Or.inr (Or.inl h)
      · exact Or.inr (Or.inr (Or.inl h))
      · exact Or.inr (Or.inr (Or.inr (Or.inl h)))
  · refine Or.inr (Or.inr ⟨i, hi, ?_⟩)
    rcases h with h | h
    · exact Or.inr (Or.inr (Or.inr (Or.inr (Or.inl h))))
    · exact Or.inr (Or.inr (Or.inr (Or.inr (Or.inr h))))

/-! ### Every access of the DCT paths is logged -/

theorem memcpy_log_mem (dst src : Buf) (n : Nat) (m : Mem α) (e : Event)
    (he : e ∈ m.log ∨ ∃ j, j < n ∧ (e = Event.read src j ∨ e = Event.write dst j)) :
    e ∈ (memcpy dst src n m).log := by
  induction n with
  | zero =>
    rcases he with he | ⟨j, hj, -⟩
    · simpa [memcpy_zero] using he
    · omega
  | succ n ih =>
    rw [memcpy_succ]
    simp only [Mem.log_write, Mem.log_read, List.mem_cons]
    rcases he with he | ⟨j, hj, he⟩
    · exact Or.inr (Or.inr (ih (Or.inl he)))
    · by_cases hjn : j = n
      · subst hjn
        rcases he with he | he
        · exact Or.inr (Or.inl he)
        · exact Or.inl he
      · exact Or.inr (Or.inr (ih (Or.inr ⟨j, by omega, he⟩)))

theorem mirror_loop_log_mem (L n : Nat) (m : Mem α) (e : Event)
    (he : e ∈ m.log ∨ ∃ i, i < n ∧
      (e = Event.read .instInput (L - i - 1) ∨ e = Event.write .dctInput (L + i))) :
    e ∈ (forLoop n (dct_forward_mirror L) m).log := by
  induction n with
  | zero =>
    rcases he with he | ⟨j, hj, -⟩
    · simpa [forLoop_zero] using he
    · omega
  | succ n ih =>
    rw [forLoop_succ]
    simp only [dct_forward_mirror, Mem.log_write, Mem.log_read, List.mem_cons]
    rcases he with he | ⟨j, hj, he⟩
    · exact Or.inr (Or.inr (ih (Or.inl he)))
    · by_cases hjn : j = n
      · subst hjn
        rcases he with he | he
        · exact Or.inr (Or.inl he)
        · exact Or.inl he
      · exact Or.inr (Or.inr (ih (Or.inr ⟨j, by omega, he⟩)))

theorem forward_twiddle_loop_log_mem [Field α] (c : α) (K : Backend α) (L n : Nat) (m : Mem α)
    (e : Event)
    (he : e ∈ m.log ∨ ∃ i, i < n ∧
      (e = Event.read .dctOutput (i * 2) ∨ e = Event.read .dctOutput (i * 2 + 1)
        ∨ e = Event.divide (2 * L) ∨ e = Event.write .instOutput i)) :
    e ∈ (forLoop n (dct_forward_twiddle c K L) m).log := by
  induction n with
  | zero =>
    rcases he with he | ⟨j, hj, -⟩
    · simpa [forLoop_zero] using he
    · omega
  | succ n ih =>
    rw [forLoop_succ]
    simp only [dct_forward_twiddle, Mem.log_write, Mem.log_read, Mem.log_fdiv, List.mem_cons]
    rcases he with he | ⟨j, hj, he⟩
    · exact Or.inr (Or.inr (Or.inr (Or.inr (ih (Or.inl he)))))
    · by_cases hjn : j = n
      · subst hjn
        rcases he with he | he | he | he
        · exact Or.inr (Or.inr (Or.inr (Or.inl he)))
        · exact Or.inr (Or.inr (Or.inl he))
        · exact Or.inr (Or.inl he)
        · exact Or.inl he
      · exact Or.inr (Or.inr (Or.inr (Or.inr (ih (Or.inr ⟨j, by omega, he⟩)))))

theorem backward_twiddle_loop_log_mem [Field α] (c : α) (K : Backend α) (L n : Nat)
    (m : Mem α) (e : Event)
    (he : e ∈ m.log ∨ ∃ i, i < n ∧
      (e = Event.divide (2 * L) ∨ e = Event.read .instInput i
        ∨ e = Event.write .dctInput (i * 2) ∨ e = Event.write .dctInput (i * 2 + 1))) :
    e ∈ (forLoop n (dct_backward_twiddle c K L) m).log := by
  induction n with
  | zero =>
    rcases he with he | ⟨j, hj, -⟩
    · simpa [forLoop_zero] using he
    · omega
  | succ n ih =>
    rw [forLoop_succ]
    simp only [dct_backward_twiddle, Mem.log_write, Mem.log_read, Mem.log_fdiv, List.mem_cons]
    rcases he with he | ⟨j, hj, he⟩
    · exact Or.inr (Or.inr (Or.inr (Or.inr (Or.inr (ih (Or.inl he))))))
    · by_cases hjn : j = n
      · subst hjn
        rcases he with he | he | he | he
        · exact Or.inr (Or.inr (Or.inr (Or.inr (Or.inl he))))
        · exact Or.inr (Or.inr (Or.inl he))
        · exact Or.inr (Or.inl he)
        · exact Or.inl he
      · exact Or.inr (Or.inr (Or.inr (Or.inr (Or.inr (ih (Or.inr ⟨j, by omega, he⟩))))))

theorem calc_dct_forward_log_mem [Field α] (c : α) (K : Backend α)
    (inst : FFTFSingleInstance α) (d : KissDCTInternalData α)
    (hdir : inst.direction = .FFTF_DIRECTION_FORWARD) (i : Nat) (hi : i < inst.length) :
    Event.read .instInput i ∈ (calc_dct c K inst d).log
      ∧ Event.write .dctInput i ∈ (calc_dct c K inst d).log
      ∧ Event.write .dctInput (inst.length + i) ∈ (calc_dct c K inst d).log
      ∧ Event.read .dctOutput (i * 2) ∈ (calc_dct c K inst d).log
      ∧ Event.read .dctOutput (i * 2 + 1) ∈ (calc_dct c K inst d).log
      ∧ Event.write .instOutput i ∈ (calc_dct c K inst d).log := by
  simp only [calc_dct, PrimCall.run, hdir, if_true]
  have hfill : ∀ e, (e ∈ (memcpy Buf.dctInput Buf.instInput inst.length (dctMem inst d)).log
        ∨ ∃ k, k < inst.length ∧ (e = Event.read .instInput (inst.length - k - 1)
            ∨ e = Event.write .dctInput (inst.length + k))) →
      e ∈ (forLoop inst.length (dct_forward_twiddle c K inst.length)
        { dct_forward_fill inst.length (dctMem inst d) with
          dctOutput := K.kiss_fftr d.cfg (dct_forward_fill inst.length (dctMem inst d)).dctInput
            (dct_forward_fill inst.length (dctMem inst d)).dctOutput }).log := by
    intro e he
    apply forward_twiddle_loop_log_mem
    left
    exact mirror_loop_log_mem inst.length inst.length _ e he
  refine ⟨?_, ?_, ?_, ?_, ?_, ?_⟩
  · exact hfill _ (Or.inl (memcpy_log_mem _ _ _ _ _ (Or.inr ⟨i, hi, Or.inl rfl⟩)))
  · exact hfill _ (Or.inl (memcpy_log_mem _ _ _ _ _ (Or.inr ⟨i, hi, Or.inr rfl⟩)))
  · exact hfill _ (Or.inr ⟨i, hi, Or.inr rfl⟩)
  · exact forward_twiddle_loop_log_mem _ _ _ _ _ _ (Or.inr ⟨i, hi, Or.inl rfl⟩)
  · exact forward_twiddle_loop_log_mem _ _ _ _ _ _ (Or.inr ⟨i, hi, Or.inr (Or.inl rfl)⟩)
  · exact forward_twiddle_loop_log_mem _ _ _ _ _ _
      (Or.inr ⟨i, hi, Or.inr (Or.inr (Or.inr rfl))⟩)

theorem calc_dct_backward_log_mem [Field α] (c : α) (K : Backend α)
    (inst : FFTFSingleInstance α) (d : KissDCTInternalData α)
    (hdir : inst.direction = .FFTF_DIRECTION_BACKWARD) :
    Event.write .dctInput inst.length ∈ (calc_dct c K inst d).log
      ∧ Event.write .dctInput (inst.length + 1) ∈ (calc_dct c K inst d).log
      ∧ ∀ i, i < inst.length →
          Event.read .instInput i ∈ (calc_dct c K inst d).log
            ∧ Event.write .dctInput (i * 2) ∈ (calc_dct c K inst d).log
            ∧ Event.write .dctInput (i * 2 + 1) ∈ (calc_dct c K inst d).log
            ∧ Event.read .dctOutput i ∈ (calc_dct c K inst d).log
            ∧ Event.write .instOutput i ∈ (calc_dct c K inst d).log := by
  have hdir' : ¬ inst.direction = .FFTF_DIRECTION_FORWARD := by simp [hdir]
  simp only [calc_dct, PrimCall.run, hdir', if_false]
  have hfill : ∀ e, (e = Event.write .dctInput inst.length
        ∨ e = Event.write .dctInput (inst.length + 1)
        ∨ e ∈ (forLoop inst.length (dct_backward_twiddle c K inst.length) (dctMem inst d)).log) →
      e ∈ (memcpy Buf.instOutput Buf.dctOutput inst.length
        { dct_backward_fill c K inst.length (dctMem inst d) with
          dctOutput := K.kiss_fftri d.cfg
            (dct_backward_fill c K inst.length (dctMem inst d)).dctInput
            (dct_backward_fill c K inst.length (dctMem inst d)).dctOutput }).log := by
    intro e he
    apply memcpy_log_mem
    left
    show e ∈ (dct_backward_fill c K inst.length (dctMem inst d)).log
    unfold dct_backward_fill
    simp only [Mem.log_write, List.mem_cons]
    rcases he with he | he | he
    · exact Or.inl he
    · exact Or.inr (Or.inl he)
    · exact Or.inr (Or.inr he)
  refine ⟨hfill _ (Or.inl rfl), hfill _ (Or.inr (Or.inl rfl)), ?_⟩
  intro i hi
  refine ⟨?_, ?_, ?_, ?_, ?_⟩
  · exact hfill _ (Or.inr (Or.inr (backward_twiddle_loop_log_mem _ _ _ _ _ _
      (Or.inr ⟨i, hi, Or.inr (Or.inl rfl)⟩))))
  · exact hfill _ (Or.inr (Or.inr (backward_twiddle_loop_log_mem _ _ _ _ _ _
      (Or.inr ⟨i, hi, Or.inr (Or.inr (Or.inl rfl))⟩))))
  · exact hfill _ (Or.inr (Or.inr (backward_twiddle_loop_log_mem _ _ _ _ _ _
      (Or.inr ⟨i, hi, Or.inr (Or.inr (Or.inr rfl))⟩))))
  · exact memcpy_log_mem _ _ _ _ _ (Or.inr ⟨i, hi, Or.inl rfl⟩)
  · exact memcpy_log_mem _ _ _ _ _ (Or.inr ⟨i, hi, Or.inr rfl⟩)

end MemoryLemmas


/-! ## The DCT-II identity behind the forward path -/

section Trigonometry

open Real Finset

theorem cos_pair (N n k : ℕ) (hN : 0 < N) (t : ℝ) :
    Real.cos (2 * π * (n : ℝ) * (k : ℝ) / ((2 * N : ℕ) : ℝ) + t)
      + Real.cos (2 * π * (2 * (N : ℝ) - 1 - (n : ℝ)) * (k : ℝ) / ((2 * N : ℕ) : ℝ) + t)
      = 2 * Real.cos (π * (k : ℝ) / (2 * (N : ℝ)) - t)
          * Real.cos (π * (k : ℝ) * (2 * (n : ℝ) + 1) / (2 * (N : ℝ))) := by
  have hN' : (N : ℝ) ≠ 0 := by exact_mod_cast hN.ne'
  have h2 : 2 * π * (2 * (N : ℝ) - 1 - (n : ℝ)) * (k : ℝ) / ((2 * N : ℕ) : ℝ) + t
      = (k : ℝ) * (2 * π) - (π * ((n : ℝ) + 1) * (k : ℝ) / (N : ℝ) - t) := by
    push_cast
    field_simp
    ring
  rw [h2, Real.cos_nat_mul_two_pi_sub, Real.cos_add_cos]
  have h3 : (2 * π * (n : ℝ) * (k : ℝ) / ((2 * N : ℕ) : ℝ) + t
      + (π * ((n : ℝ) + 1) * (k : ℝ) / (N : ℝ) - t)) / 2
      = π * (k : ℝ) * (2 * (n : ℝ) + 1) / (2 * (N : ℝ)) := by
    push_cast
    field_simp
    ring
  have h4 : (2 * π * (n : ℝ) * (k : ℝ) / ((2 * N : ℕ) : ℝ) + t
      - (π * ((n : ℝ) + 1) * (k : ℝ) / (N : ℝ) - t)) / 2
      = -(π * (k : ℝ) / (2 * (N : ℝ)) - t) := by
    push_cast
    field_simp
    ring
  rw [h3, h4, Real.cos_neg]
  ring

theorem mirrored_dft (N k : ℕ) (hN : 0 < N) (x buf : ℕ → ℝ) (t : ℝ)
    (h1 : ∀ j, j < N → buf j = x j)
    (h2 : ∀ j, N ≤ j → j < 2 * N → buf j = x (2 * N - 1 - j)) :
    Real.cos t * (∑ j in range (2 * N), buf j * Real.cos (2 * π * (j : ℝ) * (k : ℝ) / ((2 * N : ℕ) : ℝ)))
      - (-∑ j in range (2 * N), buf j * Real.sin (2 * π * (j : ℝ) * (k : ℝ) / ((2 * N : ℕ) : ℝ)))
          * -Real.sin t
      = Real.cos (π * (k : ℝ) / (2 * (N : ℝ)) - t)
          * (2 * ∑ n in range N, x n * Real.cos (π * (k : ℝ) * (2 * (n : ℝ) + 1) / (2 * (N : ℝ)))) := by
  have e1 : Real.cos t * (∑ j in range (2 * N), buf j * Real.cos (2 * π * (j : ℝ) * (k : ℝ) / ((2 * N : ℕ) : ℝ)))
      - (-∑ j in range (2 * N), buf j * Real.sin (2 * π * (j : ℝ) * (k : ℝ) / ((2 * N : ℕ) : ℝ)))
          * -Real.sin t
      = ∑ j in range (2 * N), buf j * Real.cos (2 * π * (j : ℝ) * (k : ℝ) / ((2 * N : ℕ) : ℝ) + t) := by
    rw [neg_mul_neg, Finset.mul_sum, Finset.sum_mul, ← Finset.sum_sub_distrib]
    apply Finset.sum_congr rfl
    intro j _
    rw [Real.cos_add]
    ring
  rw [e1, two_mul N, Finset.sum_range_add, ← two_mul]
  have e2 : ∑ i in range N, buf (N + i) * Real.cos (2 * π * ((N + i : ℕ) : ℝ) * (k : ℝ) / ((2 * N : ℕ) : ℝ) + t)
      = ∑ i in range N, (fun n => x n * Real.cos (2 * π * (2 * (N : ℝ) - 1 - (n : ℝ)) * (k : ℝ) / ((2 * N : ℕ) : ℝ) + t)) (N - 1 - i) := by
    apply Finset.sum_congr rfl
    intro i hi
    have hi' : i < N := Finset.mem_range.mp hi
    have hx : 2 * N - 1 - (N + i) = N - 1 - i := by omega
    have hc : ((N - 1 - i : ℕ) : ℝ) = (N : ℝ) - 1 - (i : ℝ) := by
      rw [Nat.cast_sub (by omega), Nat.cast_sub (by omega)]
      simp
    simp only [h2 (N + i) (by omega) (by omega), hx, hc]
    push_cast
    ring_nf
  rw [e2, Finset.sum_range_reflect
    (fun n => x n * Real.cos (2 * π * (2 * (N : ℝ) - 1 - (n : ℝ)) * (k : ℝ) / ((2 * N : ℕ) : ℝ) + t)) N,
    ← Finset.sum_add_distrib, Finset.mul_sum, Finset.mul_sum]
  apply Finset.sum_congr rfl
  intro n hn
  have hn' : n < N := Finset.mem_range.mp hn
  rw [h1 n hn', ← mul_add, cos_pair N n k hN t]
  ring

end Trigonometry

/-! ## Entering the DCT case -/

section Entry

variable {α : Type}

theorem exactBackend_kiss_fftri [Field α] (cos sin : α → α) (pi : α)
    (cfft : kiss_fft_state → (Nat → α) → (Nat → α) → (Nat → α))
    (cfftnd : kiss_fftnd_state → (Nat → α) → (Nat → α) → (Nat → α)) :
    (exactBackend cos sin pi cfft cfftnd).kiss_fftri = exact_fftri cos sin pi := rfl

theorem init_kiss_complex_1d (I : IntRange) (ndebug : Bool) (uninit : Nat → Nat → α) (h : Heap)
    (inst : FFTFSingleInstance α) (ht : inst.type = .FFTF_TYPE_COMPLEX)
    (hd : inst.dimension = .FFTF_DIMENSION_1D) :
    init_kiss I ndebug uninit h inst
      = some ({ next := h.next + 1, live := (h.next, .kiss_fft_alloc) :: h.live,
                released := h.released },
              { inst with internalData := .fft_cfg (complexPlan h inst.length
                  (decide (inst.direction = .FFTF_DIRECTION_BACKWARD))) }) := by
  simp [init_kiss, ht, hd, Heap.alloc, complexPlan]

theorem init_kiss_complex_nd (I : IntRange) (ndebug : Bool) (uninit : Nat → Nat → α) (h : Heap)
    (inst : FFTFSingleInstance α) (ht : inst.type = .FFTF_TYPE_COMPLEX)
    (hd : inst.dimension ≠ .FFTF_DIMENSION_1D) :
    init_kiss I ndebug uninit h inst
      = some ({ next := h.next + 1, live := (h.next, .kiss_fftnd_alloc) :: h.live,
                released := h.released },
              { inst with internalData := .fftnd_cfg (ndPlan h inst.lengths inst.dimension.ndims
                  (decide (inst.direction = .FFTF_DIRECTION_BACKWARD))) }) := by
  simp [init_kiss, ht, hd, Heap.alloc, ndPlan]

theorem calc_kiss_with_complex_1d [Field α] (c : α) (K : Backend α)
    (inst : FFTFSingleInstance α) (cfg : kiss_fft_state) (ht : inst.type = .FFTF_TYPE_COMPLEX)
    (hd : inst.dimension = .FFTF_DIMENSION_1D) (hi : inst.internalData = .fft_cfg cfg) :
    ∃ r, calc_kiss_with c K inst = some r ∧ r.call = PrimCall.kiss_fft cfg inst.input
      ∧ r.inst.output = K.kiss_fft cfg inst.input inst.output := by
  simp [calc_kiss_with, calc_direct, PrimCall.run, ht, hd, hi]

theorem calc_kiss_with_complex_nd [Field α] (c : α) (K : Backend α)
    (inst : FFTFSingleInstance α) (cfg : kiss_fftnd_state) (ht : inst.type = .FFTF_TYPE_COMPLEX)
    (hd : inst.dimension ≠ .FFTF_DIMENSION_1D) (hi : inst.internalData = .fftnd_cfg cfg) :
    ∃ r, calc_kiss_with c K inst = some r ∧ r.call = PrimCall.kiss_fftnd cfg inst.input
      ∧ r.inst.output = K.kiss_fftnd cfg inst.input inst.output := by
  simp [calc_kiss_with, calc_direct, PrimCall.run, ht, hd, hi]

theorem init_kiss_real (I : IntRange) (ndebug : Bool) (uninit : Nat → Nat → α) (h : Heap)
    (inst : FFTFSingleInstance α) (ht : inst.type = .FFTF_TYPE_REAL)
    (hok : ndebug = true ∨ inst.dimension = .FFTF_DIMENSION_1D) :
    init_kiss I ndebug uninit h inst
      = some ({ next := h.next + 1, live := (h.next, .kiss_fftr_alloc) :: h.live,
                released := h.released },
              { inst with internalData := .fftr_cfg (realPlan h inst.length
                  (decide (inst.direction = .FFTF_DIRECTION_BACKWARD))) }) := by
  rcases hok with hok | hok <;> simp [init_kiss, ht, hok, c_assert, Heap.alloc, realPlan]

theorem init_kiss_dct_ok (I : IntRange) (ndebug : Bool) (uninit : Nat → Nat → α) (h : Heap)
    (inst : FFTFSingleInstance α) (ht : inst.type = .FFTF_TYPE_DCT)
    (hok : ndebug = true ∨ inst.dimension = .FFTF_DIMENSION_1D)
    (hfit : I.Fits (inst.length * 2 + 2)) :
    init_kiss I ndebug uninit h inst
      = some ({ next := h.next + 4,
                live := (h.next + 3, .fftf_malloc) :: (h.next + 2, .fftf_malloc)
                  :: (h.next + 1, .kiss_fftr_alloc) :: (h.next, .malloc) :: h.live,
                released := h.released },
              { inst with internalData := .dct (dctPlan uninit h inst.length
                  (decide (inst.direction = .FFTF_DIRECTION_BACKWARD))) }) := by
  have h2 : I.eval (inst.length * 2) = some (inst.length * 2) :=
    IntRange.Fits.mono hfit (Nat.le_add_right _ _)
  have h3 : I.eval (inst.length * 2 + 2) = some (inst.length * 2 + 2) := hfit
  rcases hok with hok | hok <;> simp [init_kiss, ht, hok, c_assert, Heap.alloc, dctPlan, h2, h3]

theorem init_kiss_assert_fails (I : IntRange) (uninit : Nat → Nat → α) (h : Heap)
    (inst : FFTFSingleInstance α)
    (ht : inst.type = .FFTF_TYPE_REAL ∨ inst.type = .FFTF_TYPE_DCT)
    (hdim : inst.dimension ≠ .FFTF_DIMENSION_1D) :
    init_kiss I false uninit h inst = none := by
  rcases ht with ht | ht <;> simp [init_kiss, ht, hdim, c_assert]

theorem calc_kiss_with_real [Field α] (c : α) (K : Backend α) (inst : FFTFSingleInstance α)
    (cfg : kiss_fftr_state) (ht : inst.type = .FFTF_TYPE_REAL)
    (hi : inst.internalData = .fftr_cfg cfg) :
    ∃ r, calc_kiss_with c K inst = some r
      ∧ ((inst.direction = .FFTF_DIRECTION_FORWARD ∧ r.call = PrimCall.kiss_fftr cfg inst.input
            ∧ r.inst.output = K.kiss_fftr cfg inst.input inst.output)
        ∨ (inst.direction = .FFTF_DIRECTION_BACKWARD
            ∧ r.call = PrimCall.kiss_fftri cfg inst.input
            ∧ r.inst.output = K.kiss_fftri cfg inst.input inst.output)) := by
  cases hdir : inst.direction <;>
    simp [calc_kiss_with, calc_direct, PrimCall.run, ht, hi, hdir]

theorem init_kiss_dct_overflow (I : IntRange) (ndebug : Bool) (uninit : Nat → Nat → α)
    (h : Heap) (inst : FFTFSingleInstance α) (ht : inst.type = .FFTF_TYPE_DCT)
    (hfit : ¬ I.Fits (inst.length * 2 + 2)) :
    init_kiss I ndebug uninit h inst = none := by
  have h3 := IntRange.not_fits hfit
  rcases I.eval_eq (inst.length * 2) with h2 | h2 <;>
    cases hc : c_assert ndebug (decide (inst.dimension = .FFTF_DIMENSION_1D)) <;>
    simp [init_kiss, ht, hc, h2, h3]

theorem direction_cases (dir : FFTFDirection) :
    dir = .FFTF_DIRECTION_FORWARD ∨ dir = .FFTF_DIRECTION_BACKWARD := by
  cases dir
  · exact Or.inl rfl
  · exact Or.inr rfl

theorem calc_kiss_with_dct [Field α] (c : α) (K : Backend α) (inst : FFTFSingleInstance α)
    (d : KissDCTInternalData α) (ht : inst.type = .FFTF_TYPE_DCT)
    (hi : inst.internalData = .dct d) :
    calc_kiss_with c K inst = some (calc_dct c K inst d) := by
  simp [calc_kiss_with, ht, hi]

theorem init_calc_dct [Field α] (I : IntRange) (c : α) (K : Backend α) (ndebug : Bool)
    (uninit : Nat → Nat → α) (h : Heap) (inst : FFTFSingleInstance α)
    (ht : inst.type = .FFTF_TYPE_DCT) (hd : inst.dimension = .FFTF_DIMENSION_1D)
    (hfit : I.Fits (inst.length * 2 + 2)) :
    ∃ h1 inst1 d, init_kiss I ndebug uninit h inst = some (h1, inst1)
      ∧ calc_kiss_with c K inst1 = some (calc_dct c K inst1 d)
      ∧ inst1.internalData = .dct d
      ∧ inst1.direction = inst.direction ∧ inst1.length = inst.length
      ∧ inst1.input = inst.input ∧ inst1.output = inst.output
      ∧ d = dctPlan uninit h inst.length (decide (inst.direction = .FFTF_DIRECTION_BACKWARD)) := by
  refine ⟨_, _, _, init_kiss_dct_ok I ndebug uninit h inst ht (Or.inr hd) hfit, ?_, rfl, rfl,
    rfl, rfl, rfl, rfl⟩
  exact calc_kiss_with_dct c K _ _ ht rfl

end Entry

/-! ## The DCT paths over the reals -/

section RealTransforms

open Real Finset

/-- With `c` in place of the literal, exact `cosf`/`sinf` and an exact real DFT,
the forward path returns the DCT-II scaled by `cos ((π - c) k / (2N))`. -/
theorem forward_dct_scaled (I : IntRange) (c : ℝ)
    (cfft : kiss_fft_state → (Nat → ℝ) → (Nat → ℝ) → (Nat → ℝ))
    (cfftnd : kiss_fftnd_state → (Nat → ℝ) → (Nat → ℝ) → (Nat → ℝ))
    (ndebug : Bool) (uninit : Nat → Nat → ℝ) (h : Heap) (inst : FFTFSingleInstance ℝ)
    (ht : inst.type = .FFTF_TYPE_DCT) (hd : inst.dimension = .FFTF_DIMENSION_1D)
    (hdir : inst.direction = .FFTF_DIRECTION_FORWARD)
    (hfit : I.Fits (inst.length * 2 + 2)) :
    ∃ h1 inst1 r, init_kiss I ndebug uninit h inst = some (h1, inst1)
      ∧ calc_kiss_with c (exactBackend Real.cos Real.sin π cfft cfftnd) inst1 = some r
      ∧ ∀ k, k < inst.length →
          r.inst.output k
            = Real.cos ((π - c) * (k : ℝ) / (2 * (inst.length : ℝ)))
                * dct2 Real.cos π inst.length inst.input k := by
  obtain ⟨h1, inst1, d, hinit, hcalc, -, hdir1, hlen, hin, -, hd1⟩ :=
    init_calc_dct I c (exactBackend Real.cos Real.sin π cfft cfftnd) ndebug uninit h inst ht hd
      hfit
  have hdir1' : inst1.direction = .FFTF_DIRECTION_FORWARD := by rw [hdir1, hdir]
  refine ⟨h1, inst1, _, hinit, hcalc, ?_⟩
  intro k hk
  have hN : 0 < inst.length := by omega
  have hnfft : d.cfg.nfft = 2 * inst.length := by rw [hd1]; simp [dctPlan, Nat.mul_comm]
  have hbuf : ∀ j, (dct_forward_fill inst.length (dctMem inst1 d)).dctInput j
      = if j < 2 * inst.length then
          (if j < inst.length then inst.input j else inst.input (2 * inst.length - 1 - j))
        else d.input.data j := by
    intro j
    have := forward_fill_get inst.length (dctMem inst1 d) .dctInput j
    simpa [Mem.get, dctMem, hlen, hin] using this
  rw [calc_dct_forward_output c _ inst1 d hdir1' k, hlen, if_pos hk]
  have e1 : k * 2 < 2 * (2 * inst.length / 2 + 1) := by omega
  have e2 : k * 2 + 1 < 2 * (2 * inst.length / 2 + 1) := by omega
  have e3 : k * 2 % 2 = 0 := by omega
  have e4 : ¬ (k * 2 + 1) % 2 = 0 := by omega
  have e5 : k * 2 / 2 = k := by omega
  have e6 : (k * 2 + 1) / 2 = k := by omega
  simp only [exactBackend, exact_fftr, hnfft, e1, e2, e3, e4, e5, e6, if_true, if_false]
  have key := mirrored_dft inst.length k hN inst.input
    (dct_forward_fill inst.length (dctMem inst1 d)).dctInput
    (c * (k : ℝ) / ((2 * inst.length : ℕ) : ℝ))
    (fun j hj => by
      rw [hbuf]
      have : j < 2 * inst.length := by omega
      simp [hj, this])
    (fun j hj1 hj2 => by
      rw [hbuf]
      have : ¬ j < inst.length := by omega
      simp [hj2, this])
  rw [key, dct2]
  congr 2
  push_cast
  ring

theorem PI_F_lt_pi : (PI_F : ℝ) < π := by
  have h := Real.pi_gt_d20
  unfold PI_F
  norm_num at h ⊢
  linarith

theorem pi_sub_PI_F_lt : π - (PI_F : ℝ) < 1 / 1000000 := by
  have h := Real.pi_lt_d20
  unfold PI_F
  norm_num at h ⊢
  linarith

theorem twiddle_error_cos_ne_one :
    Real.cos ((π - PI_F) * ((1 : ℕ) : ℝ) / (2 * ((2 : ℕ) : ℝ))) ≠ 1 := by
  have h1 := PI_F_lt_pi
  have h2 := pi_sub_PI_F_lt
  have h3 := Real.pi_gt_three
  intro hc
  have hlo : -(2 * π) < (π - PI_F) * ((1 : ℕ) : ℝ) / (2 * ((2 : ℕ) : ℝ)) := by
    push_cast
    linarith
  have hhi : (π - PI_F) * ((1 : ℕ) : ℝ) / (2 * ((2 : ℕ) : ℝ)) < 2 * π := by
    push_cast
    linarith
  have := (Real.cos_eq_one_iff_of_lt_of_lt hlo hhi).mp hc
  push_cast at this
  linarith

theorem twiddle_error_cos_bounds (N k : ℕ) (hk : k < N) :
    1 - 1 / 10 ^ 12 < Real.cos ((π - PI_F) * (k : ℝ) / (2 * (N : ℝ)))
      ∧ Real.cos ((π - PI_F) * (k : ℝ) / (2 * (N : ℝ))) ≤ 1 := by
  refine ⟨?_, Real.cos_le_one _⟩
  have h1 := PI_F_lt_pi
  have h2 := pi_sub_PI_F_lt
  have hN : (0 : ℝ) < (N : ℝ) := by exact_mod_cast (Nat.lt_of_le_of_lt (Nat.zero_le k) hk)
  have hkN : (k : ℝ) ≤ (N : ℝ) := by exact_mod_cast hk.le
  have hk0 : (0 : ℝ) ≤ (k : ℝ) := Nat.cast_nonneg k
  have hq0 : 0 ≤ (k : ℝ) / (2 * (N : ℝ)) := div_nonneg hk0 (by linarith)
  have hq1 : (k : ℝ) / (2 * (N : ℝ)) ≤ 1 / 2 := by
    rw [div_le_iff₀ (by linarith)]
    linarith
  have hδ : (π - PI_F) * (k : ℝ) / (2 * (N : ℝ)) = (π - PI_F) * ((k : ℝ) / (2 * (N : ℝ))) := by
    ring
  rw [hδ]
  have hd0 : 0 ≤ (π - PI_F) * ((k : ℝ) / (2 * (N : ℝ))) := mul_nonneg (by linarith) hq0
  have hd1 : (π - PI_F) * ((k : ℝ) / (2 * (N : ℝ))) ≤ 1 / 1000000 := by
    nlinarith
  have hsq : ((π - PI_F) * ((k : ℝ) / (2 * (N : ℝ)))) ^ 2 ≤ (1 / 1000000) ^ 2 :=
    pow_le_pow_left₀ hd0 hd1 2
  have hcos := Real.one_sub_sq_div_two_le_cos (x := (π - PI_F) * ((k : ℝ) / (2 * (N : ℝ))))
  have : (1 / 1000000 : ℝ) ^ 2 / 2 < 1 / 10 ^ 12 := by norm_num
  linarith

theorem dct2_impulse_two :
    dct2 Real.cos π 2 (unitImpulse 0 : Nat → ℝ) 1 = √2 := by
  have e : π * ((1 : ℕ) : ℝ) * (2 * ((0 : ℕ) : ℝ) + 1) / (2 * ((2 : ℕ) : ℝ)) = π / 4 := by
    push_cast
    ring
  simp only [dct2, Finset.sum_range_succ, Finset.sum_range_zero, unitImpulse]
  rw [e, Real.cos_pi_div_four]
  simp only [if_true, one_ne_zero, if_false, zero_add, one_mul, zero_mul, add_zero]
  ring

theorem dct3_impulse_four :
    dct3 Real.cos π 4 (unitImpulse 2 : Nat → ℝ) 0 = √2
      ∧ dct3 Real.cos π 4 (unitImpulse 2 : Nat → ℝ) 2 = -√2 := by
  have e0 : π * ((2 : ℕ) : ℝ) * (2 * ((0 : ℕ) : ℝ) + 1) / (2 * ((4 : ℕ) : ℝ)) = π / 4 := by
    push_cast
    ring
  have e2 : π * ((2 : ℕ) : ℝ) * (2 * ((2 : ℕ) : ℝ) + 1) / (2 * ((4 : ℕ) : ℝ)) = π / 4 + π := by
    push_cast
    ring
  have hI : Finset.Ico 1 4 = {1, 2, 3} := by decide
  constructor
  · simp only [dct3, hI, unitImpulse]
    rw [Finset.sum_insert (by decide), Finset.sum_insert (by decide), Finset.sum_singleton]
    rw [e0, Real.cos_pi_div_four]
    norm_num
    ring
  · simp only [dct3, hI, unitImpulse]
    rw [Finset.sum_insert (by decide), Finset.sum_insert (by decide), Finset.sum_singleton]
    rw [e2, Real.cos_add_pi, Real.cos_pi_div_four]
    norm_num
    ring

end RealTransforms

/-! ## Heap lemmas -/

section HeapLemmas

theorem Heap.alloc_wellFormed (h : Heap) (hw : h.WellFormed) (a : Allocator) :
    (h.alloc a).2.WellFormed := by
  intro e he
  simp only [Heap.alloc, List.mem_cons] at he
  rcases he with he | he
  · subst he
    exact Nat.lt_succ_self _
  · exact Nat.lt_succ_of_lt (hw e he)

theorem Heap.release_wellFormed (h h' : Heap) (hw : h.WellFormed) (r : Deallocator) (p : Nat)
    (hr : h.release r p = some h') : h'.WellFormed := by
  unfold Heap.release at hr
  split at hr
  · obtain rfl := Option.some.inj hr
    intro e he
    exact hw e (List.mem_filter.mp he).1
  · exact absurd hr (by simp)

end HeapLemmas

/-! ## Claims -/

section Claims

variable {α : Type}

/-- C1 (counterexample, `N = 2`, `x = [1, 0]`, `k = 1`): over the reals, with
exact `cosf`, `sinf` and an exact real DFT, `calc_kiss` writes
`cos ((π - c) / 4) * √2` to `output[1]`, where `c` is the value of the literal
`3.141592f`, while the DCT-II value is `√2`; the two differ because `c` is not
`π`. -/
theorem forward_dct_differs_from_dct2 :
    ∃ h1 inst1 r,
      init_kiss IntRange.int32 false (fun _ _ => (0 : ℝ)) emptyHeap
          (dctInstance .FFTF_DIRECTION_FORWARD 2 (unitImpulse 0) (fun _ => 0)) = some (h1, inst1)
      ∧ calc_kiss (exactBackend Real.cos Real.sin Real.pi idlePrimitive idlePrimitive) inst1
          = some r
      ∧ r.inst.output 1 = Real.cos ((Real.pi - PI_F) / 4) * √2
      ∧ dct2 Real.cos Real.pi 2 (unitImpulse 0) 1 = √2
      ∧ r.inst.output 1 ≠ dct2 Real.cos Real.pi 2 (unitImpulse 0) 1 := by
  obtain ⟨h1, inst1, r, hinit, hcalc, hout⟩ :=
    forward_dct_scaled IntRange.int32 PI_F idlePrimitive idlePrimitive false
      (fun _ _ => (0 : ℝ)) emptyHeap
      (dctInstance .FFTF_DIRECTION_FORWARD 2 (unitImpulse 0) (fun _ => 0)) rfl rfl rfl rfl
  have h1out := hout 1 (by decide)
  simp only [dctInstance] at h1out
  rw [dct2_impulse_two] at h1out
  have hang : (Real.pi - PI_F) * ((1 : ℕ) : ℝ) / (2 * ((2 : ℕ) : ℝ)) = (Real.pi - PI_F) / 4 := by
    push_cast
    ring
  refine ⟨h1, inst1, r, hinit, hcalc, ?_, dct2_impulse_two, ?_⟩
  · rw [h1out, hang]
  · rw [h1out, dct2_impulse_two]
    intro hc
    have hs : (√2 : ℝ) ≠ 0 := by positivity
    have : Real.cos ((Real.pi - PI_F) * ((1 : ℕ) : ℝ) / (2 * ((2 : ℕ) : ℝ))) = 1 := by
      have h2 : (Real.cos ((Real.pi - PI_F) * ((1 : ℕ) : ℝ) / (2 * ((2 : ℕ) : ℝ))) - 1) * √2
          = 0 := by linarith
      rcases mul_eq_zero.mp h2 with h3 | h3
      · linarith
      · exact absurd h3 hs
    exact twiddle_error_cos_ne_one this

/-- C1 (amended): over the reals, with exact `cosf`, `sinf` and an exact real
DFT, the forward DCT of length `N ≥ 1` (with `2N + 2` representable as an `int`)
writes, for every `k < N`, the DCT-II coefficient times `cos ((π - c) k / (2N))`,
where `c` is the value of the literal `3.141592f` that stands for `π` in the
twiddle angle.  The factor lies in `(1 - 10^-12, 1]`, and coefficient `0` is the
DCT-II coefficient itself. -/
theorem forward_dct_is_scaled_dct2 (I : IntRange)
    (cfft : kiss_fft_state → (Nat → ℝ) → (Nat → ℝ) → (Nat → ℝ))
    (cfftnd : kiss_fftnd_state → (Nat → ℝ) → (Nat → ℝ) → (Nat → ℝ))
    (ndebug : Bool) (uninit : Nat → Nat → ℝ) (h : Heap) (inst : FFTFSingleInstance ℝ)
    (ht : inst.type = .FFTF_TYPE_DCT) (hd : inst.dimension = .FFTF_DIMENSION_1D)
    (hdir : inst.direction = .FFTF_DIRECTION_FORWARD) (hN : 1 ≤ inst.length)
    (hfit : I.Fits (inst.length * 2 + 2)) :
    ∃ h1 inst1 r, init_kiss I ndebug uninit h inst = some (h1, inst1)
      ∧ calc_kiss (exactBackend Real.cos Real.sin Real.pi cfft cfftnd) inst1 = some r
      ∧ (∀ k, k < inst.length →
          r.inst.output k
              = Real.cos ((Real.pi - PI_F) * (k : ℝ) / (2 * (inst.length : ℝ)))
                  * dct2 Real.cos Real.pi inst.length inst.input k
            ∧ 1 - 1 / 10 ^ 12
                < Real.cos ((Real.pi - PI_F) * (k : ℝ) / (2 * (inst.length : ℝ)))
            ∧ Real.cos ((Real.pi - PI_F) * (k : ℝ) / (2 * (inst.length : ℝ))) ≤ 1)
      ∧ r.inst.output 0 = dct2 Real.cos Real.pi inst.length inst.input 0 := by
  obtain ⟨h1, inst1, r, hinit, hcalc, hout⟩ :=
    forward_dct_scaled I PI_F cfft cfftnd ndebug uninit h inst ht hd hdir hfit
  refine ⟨h1, inst1, r, hinit, hcalc, ?_, ?_⟩
  · intro k hk
    exact ⟨hout k hk, twiddle_error_cos_bounds inst.length k hk⟩
  · rw [hout 0 (by omega)]
    simp

/-- C2 (evaluation at `N = 4`, `x = [0, 0, 1, 0]`): whatever the fresh scratch
block holds, `calc_kiss` writes the content `g` of its float `8` to both
`output[0]` and `output[2]`, while the DCT-III values there are `√2` and `-√2`;
the coefficient `x[2]` is lost because floats `4` and `5` are zeroed. -/
theorem backward_dct_differs_from_dct3 :
    ∀ uninit : Nat → Nat → ℝ, ∃ h1 inst1 r,
      init_kiss IntRange.int32 false uninit emptyHeap
          (dctInstance .FFTF_DIRECTION_BACKWARD 4 (unitImpulse 2) (fun _ => 0)) = some (h1, inst1)
      ∧ calc_kiss (exactBackend Real.cos Real.sin Real.pi idlePrimitive idlePrimitive) inst1
          = some r
      ∧ r.inst.output 0 = uninit 2 8 ∧ r.inst.output 2 = uninit 2 8
      ∧ dct3 Real.cos Real.pi 4 (unitImpulse 2) 0 = √2
      ∧ dct3 Real.cos Real.pi 4 (unitImpulse 2) 2 = -√2
      ∧ ¬ (r.inst.output 0 = dct3 Real.cos Real.pi 4 (unitImpulse 2) 0
            ∧ r.inst.output 2 = dct3 Real.cos Real.pi 4 (unitImpulse 2) 2) := by
  intro uninit
  obtain ⟨h1, inst1, d, hinit, hcalc, hint, hdir1, hlen, hin, hout, hd1⟩ :=
    init_calc_dct IntRange.int32 (PI_F : ℝ)
      (exactBackend Real.cos Real.sin Real.pi idlePrimitive idlePrimitive) false uninit emptyHeap
      (dctInstance .FFTF_DIRECTION_BACKWARD 4 (unitImpulse 2) (fun _ => 0)) rfl rfl rfl
  simp only [dctInstance] at hdir1 hlen hin hout hd1
  have hnfft : d.cfg.nfft = 8 := by rw [hd1]; rfl
  have hdata : d.input.data = uninit 2 := by rw [hd1]; rfl
  have hget := backward_fill_get (PI_F : ℝ)
    (exactBackend Real.cos Real.sin Real.pi idlePrimitive idlePrimitive) 4 (dctMem inst1 d)
    .dctInput
  simp only [Mem.get, true_and] at hget
  have hlow : ∀ j, j < 8 → (dct_backward_fill (PI_F : ℝ)
      (exactBackend Real.cos Real.sin Real.pi idlePrimitive idlePrimitive) 4
      (dctMem inst1 d)).dctInput j = 0 := by
    intro j hj
    rw [hget]
    by_cases h1 : j = 4 ∨ j = 4 + 1
    · simp [h1]
    · have h2 : j / 2 ≠ 2 := by omega
      have h3 : j < 2 * 4 := by omega
      simp [h1, dctMem, hin, unitImpulse, h2, h3]
  have h8 : (dct_backward_fill (PI_F : ℝ)
      (exactBackend Real.cos Real.sin Real.pi idlePrimitive idlePrimitive) 4
      (dctMem inst1 d)).dctInput 8 = uninit 2 8 := by
    rw [hget]
    simp [dctMem, hdata]
  have hval : ∀ n, n < 4 → (calc_dct (PI_F : ℝ)
      (exactBackend Real.cos Real.sin Real.pi idlePrimitive idlePrimitive) inst1 d).inst.output n
        = Real.cos (Real.pi * (n : ℝ)) * uninit 2 8 := by
    intro n hn
    rw [calc_dct_backward_output _ _ inst1 d hdir1 n, hlen, if_pos hn]
    have hn8 : n < 8 := by omega
    simp only [exactBackend_kiss_fftri, exact_fftri, hnfft, hn8, if_true, Nat.reduceDiv,
      Nat.reduceMul]
    rw [Finset.sum_eq_zero, hlow 0 (by omega), h8]
    · ring
    · intro k hk
      have hk' := Finset.mem_Ico.mp hk
      rw [hlow (2 * k) (by omega), hlow (2 * k + 1) (by omega)]
      ring
  have hv0 := hval 0 (by omega)
  have hv2 := hval 2 (by omega)
  have hc2 : Real.cos (Real.pi * ((2 : ℕ) : ℝ)) = 1 := by
    have := Real.cos_nat_mul_two_pi 1
    rw [← this]
    congr 1
    push_cast
    ring
  rw [hc2, one_mul] at hv2
  simp only [Nat.cast_zero, mul_zero, Real.cos_zero, one_mul] at hv0
  refine ⟨h1, inst1, _, hinit, hcalc, hv0, hv2, dct3_impulse_four.1, dct3_impulse_four.2, ?_⟩
  rw [hv0, hv2, dct3_impulse_four.1, dct3_impulse_four.2]
  rintro ⟨ha, hb⟩
  have hs : (0 : ℝ) < √2 := by positivity
  linarith

/-- C9: for even `N ≥ 2` the backward DCT zeroes both floats of complex bin
`N/2` before calling `kiss_fftri`; two inputs that differ only at index `N/2`,
run from the same scratch contents, give `kiss_fftri` the same spectrum buffer
and the caller the same output. -/
theorem backward_dct_ignores_middle [Field α] (K : Backend α) (inst : FFTFSingleInstance α)
    (d : KissDCTInternalData α) (x' : Nat → α)
    (ht : inst.type = .FFTF_TYPE_DCT) (hdir : inst.direction = .FFTF_DIRECTION_BACKWARD)
    (hi : inst.internalData = .dct d) (hN : 2 ≤ inst.length) (heven : inst.length % 2 = 0)
    (hx : ∀ i, i ≠ inst.length / 2 → x' i = inst.input i) :
    ∃ r r' cfg buf, calc_kiss K inst = some r
      ∧ calc_kiss K { inst with input := x' } = some r'
      ∧ r.call = PrimCall.kiss_fftri cfg buf
      ∧ r'.call = PrimCall.kiss_fftri cfg buf
      ∧ inst.length / 2 < inst.length
      ∧ buf (2 * (inst.length / 2)) = 0 ∧ buf (2 * (inst.length / 2) + 1) = 0
      ∧ r.inst.output = r'.inst.output := by
  have hbuf : (dct_backward_fill (PI_F : α) K inst.length
        (dctMem { inst with input := x' } d)).dctInput
      = (dct_backward_fill (PI_F : α) K inst.length (dctMem inst d)).dctInput := by
    funext j
    have e1 := backward_fill_get (PI_F : α) K inst.length
      (dctMem { inst with input := x' } d) .dctInput j
    have e2 := backward_fill_get (PI_F : α) K inst.length (dctMem inst d) .dctInput j
    simp only [Mem.get, true_and] at e1 e2
    rw [e1, e2]
    by_cases h1 : j = inst.length ∨ j = inst.length + 1
    · simp [h1]
    · have h2 : j / 2 ≠ inst.length / 2 := by omega
      simp [h1, dctMem, hx (j / 2) h2]
  have hz : ∀ j, j = inst.length ∨ j = inst.length + 1 →
      (dct_backward_fill (PI_F : α) K inst.length (dctMem inst d)).dctInput j = 0 := by
    intro j hj
    have e2 := backward_fill_get (PI_F : α) K inst.length (dctMem inst d) .dctInput j
    simp only [Mem.get, true_and] at e2
    rw [e2]
    simp [hj]
  refine ⟨_, _, d.cfg, _, calc_kiss_with_dct _ K inst d ht hi,
    calc_kiss_with_dct _ K { inst with input := x' } d ht hi,
    calc_dct_backward_call _ K inst d hdir, ?_, by omega, ?_, ?_, ?_⟩
  · rw [calc_dct_backward_call _ K { inst with input := x' } d hdir]
    exact congrArg _ hbuf
  · exact hz _ (Or.inl (by omega))
  · exact hz _ (Or.inr (by omega))
  · funext n
    rw [calc_dct_backward_output _ K inst d hdir n,
      calc_dct_backward_output _ K { inst with input := x' } d hdir n]
    exact congrArg (fun b => if n < inst.length then K.kiss_fftri d.cfg b d.output.data n
      else inst.output n) hbuf.symm

/-- C8 (counterexample, `N = 2^30 - 1`): with a 32-bit `int` the expression
`instance->length * 2 + 2` has no value, so `init_kiss` allocates no scratch
buffer of `2N + 2` floats and no run of the DCT path is in bounds of one. -/
theorem dct_sizes_overflow_int :
    IntRange.int32.eval (1073741823 * 2 + 2) = none
      ∧ init_kiss IntRange.int32 false (sampleUninit : Nat → Nat → ℚ) emptyHeap
          (dctInstance .FFTF_DIRECTION_FORWARD 1073741823 rampInput (fun _ => 0)) = none
      ∧ ¬ ∃ h1 inst1 d r,
          init_kiss IntRange.int32 false (sampleUninit : Nat → Nat → ℚ) emptyHeap
            (dctInstance .FFTF_DIRECTION_FORWARD 1073741823 rampInput (fun _ => 0))
              = some (h1, inst1)
          ∧ inst1.internalData = .dct d
          ∧ d.input.size = 2 * 1073741823 + 2 ∧ d.output.size = 2 * 1073741823 + 2
          ∧ calc_kiss idleBackend inst1 = some r
          ∧ ∀ e ∈ r.log, e.InBounds 1073741823 d.input.size d.output.size := by
  have hnf : ¬ IntRange.int32.Fits (1073741823 * 2 + 2) := by
    rw [IntRange.fits_int32]
    omega
  have hnone : init_kiss IntRange.int32 false (sampleUninit : Nat → Nat → ℚ) emptyHeap
      (dctInstance .FFTF_DIRECTION_FORWARD 1073741823 rampInput (fun _ => 0)) = none :=
    init_kiss_dct_overflow IntRange.int32 false _ emptyHeap _ rfl hnf
  refine ⟨IntRange.not_fits hnf, hnone, ?_⟩
  rintro ⟨h1, inst1, d, r, hinit, -⟩
  rw [hnone] at hinit
  exact absurd hinit (by simp)

/-- C8 (amended): when `2N + 2` is representable as an `int`, in both DCT paths
every index at which `calc_kiss` itself loads from or stores to a scratch buffer
is below the `2N + 2` floats `init_kiss` allocated for it, every index into the
caller's arrays is below `N`, every divisor used for a twiddle angle is
non-zero, and every index and divisor is representable as an `int`.  The
accesses include the ranges the paths are built on: forward, stores to
`input[0..2N-1]` and loads of `output[0..2N-1]`; backward, stores to
`input[0..2N-1]`, `input[N]`, `input[N+1]` and loads of `output[0..N-1]`. -/
theorem dct_accesses_in_bounds [Field α] (I : IntRange) (K : Backend α) (ndebug : Bool)
    (uninit : Nat → Nat → α) (h : Heap) (inst : FFTFSingleInstance α)
    (ht : inst.type = .FFTF_TYPE_DCT) (hd : inst.dimension = .FFTF_DIMENSION_1D)
    (hfit : I.Fits (inst.length * 2 + 2)) :
    ∃ h1 inst1 d r, init_kiss I ndebug uninit h inst = some (h1, inst1)
      ∧ inst1.internalData = .dct d
      ∧ d.input.size = 2 * inst.length + 2 ∧ d.output.size = 2 * inst.length + 2
      ∧ calc_kiss K inst1 = some r
      ∧ (∀ e ∈ r.log, e.InBounds inst.length d.input.size d.output.size)
      ∧ (∀ e ∈ r.log, I.Fits e.operand)
      ∧ (inst.direction = .FFTF_DIRECTION_FORWARD → ∀ j, j < 2 * inst.length →
          Event.write .dctInput j ∈ r.log ∧ Event.read .dctOutput j ∈ r.log)
      ∧ (inst.direction = .FFTF_DIRECTION_BACKWARD →
          (∀ j, j < 2 * inst.length → Event.write .dctInput j ∈ r.log)
            ∧ Event.write .dctInput inst.length ∈ r.log
            ∧ Event.write .dctInput (inst.length + 1) ∈ r.log
            ∧ ∀ j, j < inst.length → Event.read .dctOutput j ∈ r.log) := by
  obtain ⟨h1, inst1, d, hinit, hcalc, hint, hdir1, hlen, hin, -, hd1⟩ :=
    init_calc_dct I (PI_F : α) K ndebug uninit h inst ht hd hfit
  have hs1 : d.input.size = 2 * inst.length + 2 := by rw [hd1]; simp [dctPlan, Nat.mul_comm]
  have hs2 : d.output.size = 2 * inst.length + 2 := by rw [hd1]; simp [dctPlan, Nat.mul_comm]
  have hmain : ∀ e ∈ (calc_dct (PI_F : α) K inst1 d).log,
      e.InBounds inst.length (2 * inst.length + 2) (2 * inst.length + 2)
        ∧ e.operand ≤ 2 * inst.length + 2 := ?_
  · refine ⟨h1, inst1, d, _, hinit, hint, hs1, hs2, hcalc, ?_, ?_, ?_, ?_⟩
    · intro e he
      rw [hs1, hs2]
      exact (hmain e he).1
    · intro e he
      exact IntRange.Fits.mono hfit (by have := (hmain e he).2; omega)
    · intro hdir j hj
      have hdir1' : inst1.direction = .FFTF_DIRECTION_FORWARD := by rw [hdir1, hdir]
      have hlog := calc_dct_forward_log_mem (PI_F : α) K inst1 d hdir1'
      rw [hlen] at hlog
      constructor
      · by_cases hjN : j < inst.length
        · exact (hlog j hjN).2.1
        · have := (hlog (j - inst.length) (by omega)).2.2.1
          have e : inst.length + (j - inst.length) = j := by omega
          rwa [e] at this
      · by_cases hj2 : j % 2 = 0
        · have := (hlog (j / 2) (by omega)).2.2.2.1
          have e : j / 2 * 2 = j := by omega
          rwa [e] at this
        · have := (hlog (j / 2) (by omega)).2.2.2.2.1
          have e : j / 2 * 2 + 1 = j := by omega
          rwa [e] at this
    · intro hdir
      have hdir1' : inst1.direction = .FFTF_DIRECTION_BACKWARD := by rw [hdir1, hdir]
      have hlog := calc_dct_backward_log_mem (PI_F : α) K inst1 d hdir1'
      rw [hlen] at hlog
      refine ⟨?_, hlog.1, hlog.2.1, fun j hj => (hlog.2.2 j hj).2.2.2.1⟩
      intro j hj
      by_cases hj2 : j % 2 = 0
      · have := (hlog.2.2 (j / 2) (by omega)).2.1
        have e : j / 2 * 2 = j := by omega
        rwa [e] at this
      · have := (hlog.2.2 (j / 2) (by omega)).2.2.1
        have e : j / 2 * 2 + 1 = j := by omega
        rwa [e] at this
  intro e he
  cases hdc : inst1.direction with
  | FFTF_DIRECTION_FORWARD =>
    obtain ⟨i, hi, hcase⟩ := calc_dct_forward_log _ K inst1 d hdc e he
    rw [hlen] at hi hcase
    rcases hcase with hc | hc | hc | hc | hc | hc | hc | hc <;> subst hc <;>
      simp only [Event.InBounds, Event.operand] <;> omega
  | FFTF_DIRECTION_BACKWARD =>
    rcases calc_dct_backward_log _ K inst1 d hdc e he with hc | hc | ⟨i, hi, hcase⟩
    · rw [hlen] at hc; subst hc; simp only [Event.InBounds, Event.operand]; omega
    · rw [hlen] at hc; subst hc; simp only [Event.InBounds, Event.operand]; omega
    · rw [hlen] at hi hcase
      rcases hcase with hc | hc | hc | hc | hc | hc <;> subst hc <;>
        simp only [Event.InBounds, Event.operand] <;> omega

/-- C3: when real and DCT instances are 1-D, `init_kiss` returns a plan (for a
DCT instance exactly when `length * 2 + 2` is representable as an `int`), and on
whatever it returns `calc_kiss` finds in `internalData` the kind of plan its
cast assumes and computes its destination by the matching primitive on that
plan: a 1-D complex plan of size `length` run by `kiss_fft`, an N-D plan over
`(lengths, dimension)` run by `kiss_fftnd`, a real plan of size `length` run by
`kiss_fftr` or `kiss_fftri`, each from the caller's input to the caller's
output, or a `KissDCTInternalData` with a real plan of size `2 * length` and two
scratch buffers of `2 * length + 2` floats, run from the scratch input to the
scratch output. -/
theorem plan_kind_agreement [Field α] (I : IntRange) (K : Backend α) (ndebug : Bool)
    (uninit : Nat → Nat → α) (h : Heap) (inst : FFTFSingleInstance α)
    (h1D : inst.type = .FFTF_TYPE_REAL ∨ inst.type = .FFTF_TYPE_DCT →
      inst.dimension = .FFTF_DIMENSION_1D) :
    ((init_kiss I ndebug uninit h inst).isSome = true
        ↔ (inst.type = .FFTF_TYPE_DCT → I.Fits (inst.length * 2 + 2)))
      ∧ ∀ h1 inst1, init_kiss I ndebug uninit h inst = some (h1, inst1) →
        ∃ r, calc_kiss K inst1 = some r
          ∧ (inst.type = .FFTF_TYPE_COMPLEX → inst.dimension = .FFTF_DIMENSION_1D →
              ∃ cfg, inst1.internalData = .fft_cfg cfg ∧ cfg.nfft = inst.length
                ∧ r.call = PrimCall.kiss_fft cfg inst.input
                ∧ r.inst.output = K.kiss_fft cfg inst.input inst.output)
          ∧ (inst.type = .FFTF_TYPE_COMPLEX → inst.dimension ≠ .FFTF_DIMENSION_1D →
              ∃ cfg, inst1.internalData = .fftnd_cfg cfg ∧ cfg.dims = inst.lengths
                ∧ cfg.ndims = inst.dimension.ndims
                ∧ r.call = PrimCall.kiss_fftnd cfg inst.input
                ∧ r.inst.output = K.kiss_fftnd cfg inst.input inst.output)
          ∧ (inst.type = .FFTF_TYPE_REAL →
              ∃ cfg, inst1.internalData = .fftr_cfg cfg ∧ cfg.nfft = inst.length
                ∧ ((r.call = PrimCall.kiss_fftr cfg inst.input
                      ∧ r.inst.output = K.kiss_fftr cfg inst.input inst.output)
                    ∨ (r.call = PrimCall.kiss_fftri cfg inst.input
                      ∧ r.inst.output = K.kiss_fftri cfg inst.input inst.output)))
          ∧ (inst.type = .FFTF_TYPE_DCT →
              ∃ d buf d', inst1.internalData = .dct d ∧ d.cfg.nfft = 2 * inst.length
                ∧ d.input.size = 2 * inst.length + 2 ∧ d.output.size = 2 * inst.length + 2
                ∧ r.inst.internalData = .dct d' ∧ d'.input.data = buf
                ∧ ((r.call = PrimCall.kiss_fftr d.cfg buf
                      ∧ d'.output.data = K.kiss_fftr d.cfg buf d.output.data)
                    ∨ (r.call = PrimCall.kiss_fftri d.cfg buf
                      ∧ d'.output.data = K.kiss_fftri d.cfg buf d.output.data))) := by
  cases ht : inst.type
  · by_cases hd : inst.dimension = .FFTF_DIMENSION_1D
    · have hinit0 := init_kiss_complex_1d I ndebug uninit h inst ht hd
      refine ⟨⟨(fun _ hx => nomatch hx), fun _ => by rw [hinit0]; rfl⟩, ?_⟩
      intro h1 inst1 hinit
      rw [hinit0] at hinit
      obtain ⟨-, rfl⟩ := Prod.mk.inj (Option.some.inj hinit)
      obtain ⟨r, hr, hc, ho⟩ := calc_kiss_with_complex_1d (PI_F : α) K
        { inst with internalData := .fft_cfg (complexPlan h inst.length
            (decide (inst.direction = .FFTF_DIRECTION_BACKWARD))) } _ ht hd rfl
      exact ⟨r, hr, fun _ _ => ⟨_, rfl, rfl, hc, ho⟩, fun _ hn => absurd hd hn,
        (fun hx => nomatch hx), (fun hx => nomatch hx)⟩
    · have hinit0 := init_kiss_complex_nd I ndebug uninit h inst ht hd
      refine ⟨⟨(fun _ hx => nomatch hx), fun _ => by rw [hinit0]; rfl⟩, ?_⟩
      intro h1 inst1 hinit
      rw [hinit0] at hinit
      obtain ⟨-, rfl⟩ := Prod.mk.inj (Option.some.inj hinit)
      obtain ⟨r, hr, hc, ho⟩ := calc_kiss_with_complex_nd (PI_F : α) K
        { inst with internalData := .fftnd_cfg (ndPlan h inst.lengths inst.dimension.ndims
            (decide (inst.direction = .FFTF_DIRECTION_BACKWARD))) } _ ht hd rfl
      exact ⟨r, hr, fun _ hy => absurd hy hd, fun _ _ => ⟨_, rfl, rfl, rfl, hc, ho⟩,
        (fun hx => nomatch hx), (fun hx => nomatch hx)⟩
  · have hd : inst.dimension = .FFTF_DIMENSION_1D := h1D (Or.inl ht)
    have hinit0 := init_kiss_real I ndebug uninit h inst ht (Or.inr hd)
    refine ⟨⟨(fun _ hx => nomatch hx), fun _ => by rw [hinit0]; rfl⟩, ?_⟩
    intro h1 inst1 hinit
    rw [hinit0] at hinit
    obtain ⟨-, rfl⟩ := Prod.mk.inj (Option.some.inj hinit)
    obtain ⟨r, hr, hc⟩ := calc_kiss_with_real (PI_F : α) K
      { inst with internalData := .fftr_cfg (realPlan h inst.length
          (decide (inst.direction = .FFTF_DIRECTION_BACKWARD))) } _ ht rfl
    refine ⟨r, hr, (fun hx => nomatch hx), (fun hx => nomatch hx),
      fun _ => ⟨_, rfl, rfl, ?_⟩, (fun hx => nomatch hx)⟩
    rcases hc with ⟨-, hc, ho⟩ | ⟨-, hc, ho⟩
    · exact Or.inl ⟨hc, ho⟩
    · exact Or.inr ⟨hc, ho⟩
  · have hd : inst.dimension = .FFTF_DIMENSION_1D := h1D (Or.inr ht)
    by_cases hfit : I.Fits (inst.length * 2 + 2)
    · have hinit0 := init_kiss_dct_ok I ndebug uninit h inst ht (Or.inr hd) hfit
      refine ⟨⟨fun _ _ => hfit, fun _ => by rw [hinit0]; rfl⟩, ?_⟩
      intro h1 inst1 hinit
      rw [hinit0] at hinit
      obtain ⟨-, rfl⟩ := Prod.mk.inj (Option.some.inj hinit)
      have hr := calc_kiss_with_dct (PI_F : α) K
        { inst with internalData := .dct (dctPlan uninit h inst.length
            (decide (inst.direction = .FFTF_DIRECTION_BACKWARD))) } _ ht rfl
      rcases direction_cases inst.direction with hdir | hdir
      · obtain ⟨d', hd', hin', hout'⟩ := calc_dct_forward_scratch (PI_F : α) K
          { inst with internalData := .dct (dctPlan uninit h inst.length
              (decide (inst.direction = .FFTF_DIRECTION_BACKWARD))) }
          (dctPlan uninit h inst.length (decide (inst.direction = .FFTF_DIRECTION_BACKWARD)))
          hdir
        exact ⟨_, hr, (fun hx => nomatch hx), (fun hx => nomatch hx), (fun hx => nomatch hx),
          fun _ => ⟨_, _, d', rfl, by simp [dctPlan, Nat.mul_comm],
            by simp [dctPlan, Nat.mul_comm], by simp [dctPlan, Nat.mul_comm], hd', hin',
            Or.inl ⟨calc_dct_forward_call _ K _ _ hdir, hout'⟩⟩⟩
      · obtain ⟨d', hd', -, -, hin', hout'⟩ := calc_dct_backward_scratch (PI_F : α) K
          { inst with internalData := .dct (dctPlan uninit h inst.length
              (decide (inst.direction = .FFTF_DIRECTION_BACKWARD))) }
          (dctPlan uninit h inst.length (decide (inst.direction = .FFTF_DIRECTION_BACKWARD)))
          hdir
        exact ⟨_, hr, (fun hx => nomatch hx), (fun hx => nomatch hx), (fun hx => nomatch hx),
          fun _ => ⟨_, _, d', rfl, by simp [dctPlan, Nat.mul_comm],
            by simp [dctPlan, Nat.mul_comm], by simp [dctPlan, Nat.mul_comm], hd', hin',
            Or.inr ⟨calc_dct_backward_call _ K _ _ hdir, hout'⟩⟩⟩
    · have hinit0 := init_kiss_dct_overflow I ndebug uninit h inst ht hfit
      refine ⟨⟨fun hs => ?_, fun hx => absurd (hx rfl) hfit⟩, ?_⟩
      · rw [hinit0] at hs
        exact absurd hs (by simp)
      · intro h1 inst1 hinit
        rw [hinit0] at hinit
        exact absurd hinit (by simp)

/-- C5: for a real or DCT instance, `init_kiss` returns exactly when the
instance is 1-D (or `NDEBUG` is set) and, for a DCT instance, `length * 2 + 2`
is representable as an `int`.  Whenever it returns, the real plan it stored has
the inverse flag exactly for `FFTF_DIRECTION_BACKWARD`, and `calc_kiss` computes
its destination by `kiss_fftr` on that plan (flag clear) when the direction is
forward and by `kiss_fftri` on it (flag set) when it is backward: from the
caller's input to the caller's output for a real instance, from the scratch
input to the scratch output for a DCT instance.  The DCT plan has the even size
`2 * length`. -/
theorem direction_agreement [Field α] (I : IntRange) (K : Backend α) (ndebug : Bool)
    (uninit : Nat → Nat → α) (h : Heap) (inst : FFTFSingleInstance α)
    (ht : inst.type = .FFTF_TYPE_REAL ∨ inst.type = .FFTF_TYPE_DCT) :
    ((init_kiss I ndebug uninit h inst).isSome = true
        ↔ (ndebug = true ∨ inst.dimension = .FFTF_DIMENSION_1D)
          ∧ (inst.type = .FFTF_TYPE_DCT → I.Fits (inst.length * 2 + 2)))
      ∧ ∀ h1 inst1, init_kiss I ndebug uninit h inst = some (h1, inst1) →
          ∃ cfg r buf prior dest,
            ((inst1.internalData = .fftr_cfg cfg ∧ buf = inst.input ∧ prior = inst.output
                ∧ dest = r.inst.output)
              ∨ ∃ d d', inst1.internalData = .dct d ∧ d.cfg = cfg
                  ∧ r.inst.internalData = .dct d' ∧ buf = d'.input.data
                  ∧ prior = d.output.data ∧ dest = d'.output.data)
            ∧ (cfg.inverse = true ↔ inst.direction = .FFTF_DIRECTION_BACKWARD)
            ∧ calc_kiss K inst1 = some r
            ∧ ((inst.direction = .FFTF_DIRECTION_FORWARD
                  ∧ r.call = PrimCall.kiss_fftr cfg buf
                  ∧ dest = K.kiss_fftr cfg buf prior ∧ cfg.inverse = false)
                ∨ (inst.direction = .FFTF_DIRECTION_BACKWARD
                  ∧ r.call = PrimCall.kiss_fftri cfg buf
                  ∧ dest = K.kiss_fftri cfg buf prior ∧ cfg.inverse = true))
            ∧ (inst.type = .FFTF_TYPE_DCT →
                cfg.nfft = 2 * inst.length ∧ cfg.nfft % 2 = 0) := by
  have hnone : ¬ (ndebug = true ∨ inst.dimension = .FFTF_DIMENSION_1D) →
      init_kiss I ndebug uninit h inst = none := by
    intro hno
    have h1 : ndebug = false := by
      cases ndebug
      · rfl
      · exact absurd (Or.inl rfl) hno
    rw [h1]
    exact init_kiss_assert_fails I uninit h inst ht (fun hd => hno (Or.inr hd))
  rcases ht with ht | ht
  · have hsome : ∀ hok : ndebug = true ∨ inst.dimension = .FFTF_DIMENSION_1D, _ :=
      fun hok => init_kiss_real I ndebug uninit h inst ht hok
    refine ⟨⟨fun hs => ⟨?_, fun hx => absurd (ht.symm.trans hx) (by decide)⟩,
      fun hx => by rw [hsome hx.1]; rfl⟩, ?_⟩
    · by_contra hok
      rw [hnone hok] at hs
      exact absurd hs (by simp)
    · intro h1 inst1 hinit
      by_cases hok : ndebug = true ∨ inst.dimension = .FFTF_DIMENSION_1D
      · rw [hsome hok] at hinit
        obtain ⟨-, rfl⟩ := Prod.mk.inj (Option.some.inj hinit)
        obtain ⟨r, hr, hcall⟩ := calc_kiss_with_real (PI_F : α) K
          { inst with internalData := .fftr_cfg (realPlan h inst.length
              (decide (inst.direction = .FFTF_DIRECTION_BACKWARD))) } _ ht rfl
        refine ⟨_, r, inst.input, inst.output, r.inst.output, Or.inl ⟨rfl, rfl, rfl, rfl⟩,
          by simp [realPlan], hr, ?_, ?_⟩
        · rcases hcall with ⟨hd, hc, ho⟩ | ⟨hd, hc, ho⟩
          · exact Or.inl ⟨hd, hc, ho, by simp only at hd; simp [hd, realPlan]⟩
          · exact Or.inr ⟨hd, hc, ho, by simp only at hd; simp [hd, realPlan]⟩
        · intro hdct
          rw [ht] at hdct
          exact absurd hdct (by decide)
      · rw [hnone hok] at hinit
        exact absurd hinit (by simp)
  · have hsome : ∀ (hok : ndebug = true ∨ inst.dimension = .FFTF_DIMENSION_1D)
        (hfit : I.Fits (inst.length * 2 + 2)), _ :=
      fun hok hfit => init_kiss_dct_ok I ndebug uninit h inst ht hok hfit
    have hover : ¬ I.Fits (inst.length * 2 + 2) → init_kiss I ndebug uninit h inst = none :=
      fun hfit => init_kiss_dct_overflow I ndebug uninit h inst ht hfit
    refine ⟨⟨fun hs => ⟨?_, fun _ => ?_⟩, fun hx => by rw [hsome hx.1 (hx.2 ht)]; rfl⟩, ?_⟩
    · by_contra hok
      rw [hnone hok] at hs
      exact absurd hs (by simp)
    · by_contra hfit
      rw [hover hfit] at hs
      exact absurd hs (by simp)
    · intro h1 inst1 hinit
      by_cases hok : ndebug = true ∨ inst.dimension = .FFTF_DIMENSION_1D
      · by_cases hfit : I.Fits (inst.length * 2 + 2)
        · rw [hsome hok hfit] at hinit
          obtain ⟨-, rfl⟩ := Prod.mk.inj (Option.some.inj hinit)
          have hr := calc_kiss_with_dct (PI_F : α) K
            { inst with internalData := .dct (dctPlan uninit h inst.length
                (decide (inst.direction = .FFTF_DIRECTION_BACKWARD))) } _ ht rfl
          rcases direction_cases inst.direction with hdir | hdir
          · obtain ⟨d', hd', hin', hout'⟩ := calc_dct_forward_scratch (PI_F : α) K
              { inst with internalData := .dct (dctPlan uninit h inst.length
                  (decide (inst.direction = .FFTF_DIRECTION_BACKWARD))) }
              (dctPlan uninit h inst.length
                (decide (inst.direction = .FFTF_DIRECTION_BACKWARD))) hdir
            refine ⟨_, _, _, _, _, Or.inr ⟨_, d', rfl, rfl, hd', hin'.symm, rfl, rfl⟩,
              by simp [dctPlan, hdir], hr,
              Or.inl ⟨hdir, calc_dct_forward_call _ K _ _ hdir, hout',
                by simp [dctPlan, hdir]⟩, ?_⟩
            intro _
            simp only [dctPlan]
            omega
          · obtain ⟨d', hd', -, -, hin', hout'⟩ := calc_dct_backward_scratch (PI_F : α) K
              { inst with internalData := .dct (dctPlan uninit h inst.length
                  (decide (inst.direction = .FFTF_DIRECTION_BACKWARD))) }
              (dctPlan uninit h inst.length
                (decide (inst.direction = .FFTF_DIRECTION_BACKWARD))) hdir
            refine ⟨_, _, _, _, _, Or.inr ⟨_, d', rfl, rfl, hd', hin'.symm, rfl, rfl⟩,
              by simp [dctPlan, hdir], hr,
              Or.inr ⟨hdir, calc_dct_backward_call _ K _ _ hdir, hout',
                by simp [dctPlan, hdir]⟩, ?_⟩
            intro _
            simp only [dctPlan]
            omega
        · rw [hover hfit] at hinit
          exact absurd hinit (by simp)
      · rw [hnone hok] at hinit
        exact absurd hinit (by simp)

/-- Instance of C9 at `N = 2`, where the inputs `[1, 2]` and `[1, 7]` differ at index `1`. -/
theorem backward_dct_ignores_middle_witness :
    (2 : ℕ) ≤ (sampleBackward : FFTFSingleInstance ℚ).length
      ∧ (sampleBackward : FFTFSingleInstance ℚ).length % 2 = 0
      ∧ (∀ i, i ≠ (sampleBackward : FFTFSingleInstance ℚ).length / 2 →
          rampInputAlt i
            = (sampleBackward : FFTFSingleInstance ℚ).input i)
      ∧ ∃ r r' cfg buf, calc_kiss idleBackend (sampleBackward : FFTFSingleInstance ℚ) = some r
          ∧ calc_kiss idleBackend
              { (sampleBackward : FFTFSingleInstance ℚ) with
                input := rampInputAlt } = some r'
          ∧ r.call = PrimCall.kiss_fftri cfg buf
          ∧ r'.call = PrimCall.kiss_fftri cfg buf
          ∧ 2 / 2 < 2
          ∧ buf (2 * (2 / 2)) = 0 ∧ buf (2 * (2 / 2) + 1) = 0
          ∧ r.inst.output = r'.inst.output :=
  have hx : ∀ i, i ≠ (sampleBackward : FFTFSingleInstance ℚ).length / 2 →
      rampInputAlt i
        = (sampleBackward : FFTFSingleInstance ℚ).input i := by
    intro i hi
    have hi' : i ≠ 1 := hi
    simp [sampleBackward, rampInputAlt, rampInput, hi']
  ⟨by decide, by decide, hx,
    backward_dct_ignores_middle idleBackend sampleBackward
      (dctPlan (fun _ _ => 0) emptyHeap 2 true) rampInputAlt rfl rfl rfl (by decide) (by decide) hx⟩

/-- Instance of C1 (amended) at the two-point forward instance on `[1, 2]` with a
32-bit `int`. -/
theorem forward_dct_is_scaled_dct2_witness :
    (sampleDCT .FFTF_DIRECTION_FORWARD : FFTFSingleInstance ℝ).type = .FFTF_TYPE_DCT
      ∧ (sampleDCT .FFTF_DIRECTION_FORWARD : FFTFSingleInstance ℝ).dimension
          = .FFTF_DIMENSION_1D
      ∧ (sampleDCT .FFTF_DIRECTION_FORWARD : FFTFSingleInstance ℝ).direction
          = .FFTF_DIRECTION_FORWARD
      ∧ (1 : ℕ) ≤ (sampleDCT .FFTF_DIRECTION_FORWARD : FFTFSingleInstance ℝ).length
      ∧ IntRange.int32.Fits
          ((sampleDCT .FFTF_DIRECTION_FORWARD : FFTFSingleInstance ℝ).length * 2 + 2)
      ∧ ∃ h1 inst1 r,
          init_kiss IntRange.int32 false (fun _ _ => (0 : ℝ)) emptyHeap
              (sampleDCT .FFTF_DIRECTION_FORWARD)
            = some (h1, inst1)
          ∧ calc_kiss (exactBackend Real.cos Real.sin Real.pi idlePrimitive idlePrimitive) inst1
              = some r
          ∧ (∀ k, k < 2 →
              r.inst.output k
                  = Real.cos ((Real.pi - PI_F) * (k : ℝ) / (2 * ((2 : ℕ) : ℝ)))
                      * dct2 Real.cos Real.pi 2 rampInput k
                ∧ 1 - 1 / 10 ^ 12
                    < Real.cos ((Real.pi - PI_F) * (k : ℝ) / (2 * ((2 : ℕ) : ℝ)))
                ∧ Real.cos ((Real.pi - PI_F) * (k : ℝ) / (2 * ((2 : ℕ) : ℝ))) ≤ 1)
          ∧ r.inst.output 0 = dct2 Real.cos Real.pi 2 rampInput 0 :=
  ⟨rfl, rfl, rfl, by decide, rfl,
    forward_dct_is_scaled_dct2 IntRange.int32 idlePrimitive idlePrimitive false
      (fun _ _ => (0 : ℝ)) emptyHeap (sampleDCT .FFTF_DIRECTION_FORWARD) rfl rfl rfl
      (by decide) rfl⟩

/-- Instance of C8 (amended) at the two-point backward instance on `[1, 2]` with a
32-bit `int`. -/
theorem dct_accesses_in_bounds_witness :
    (sampleDCT .FFTF_DIRECTION_BACKWARD : FFTFSingleInstance ℚ).type = .FFTF_TYPE_DCT
      ∧ (sampleDCT .FFTF_DIRECTION_BACKWARD : FFTFSingleInstance ℚ).dimension
          = .FFTF_DIMENSION_1D
      ∧ IntRange.int32.Fits
          ((sampleDCT .FFTF_DIRECTION_BACKWARD : FFTFSingleInstance ℚ).length * 2 + 2)
      ∧ ∃ h1 inst1 d r,
          init_kiss IntRange.int32 false (fun _ _ => (0 : ℚ)) emptyHeap
              (sampleDCT .FFTF_DIRECTION_BACKWARD)
            = some (h1, inst1)
          ∧ inst1.internalData = .dct d
          ∧ d.input.size = 2 * 2 + 2 ∧ d.output.size = 2 * 2 + 2
          ∧ calc_kiss idleBackend inst1 = some r
          ∧ (∀ e ∈ r.log, e.InBounds 2 d.input.size d.output.size)
          ∧ (∀ e ∈ r.log, IntRange.int32.Fits e.operand)
          ∧ ((sampleDCT .FFTF_DIRECTION_BACKWARD : FFTFSingleInstance ℚ).direction
                = .FFTF_DIRECTION_FORWARD → ∀ j, j < 2 * 2 →
              Event.write .dctInput j ∈ r.log ∧ Event.read .dctOutput j ∈ r.log)
          ∧ ((sampleDCT .FFTF_DIRECTION_BACKWARD : FFTFSingleInstance ℚ).direction
                = .FFTF_DIRECTION_BACKWARD →
              (∀ j, j < 2 * 2 → Event.write .dctInput j ∈ r.log)
                ∧ Event.write .dctInput 2 ∈ r.log
                ∧ Event.write .dctInput (2 + 1) ∈ r.log
                ∧ ∀ j, j < 2 → Event.read .dctOutput j ∈ r.log) :=
  ⟨rfl, rfl, rfl,
    dct_accesses_in_bounds IntRange.int32 idleBackend false (fun _ _ => (0 : ℚ)) emptyHeap
      (sampleDCT .FFTF_DIRECTION_BACKWARD) rfl rfl rfl⟩

/-- Instance of C3 at a 1-D real backward instance of length `4` with a
32-bit `int`. -/
theorem plan_kind_agreement_witness :
    ((sampleReal : FFTFSingleInstance ℚ).type = .FFTF_TYPE_REAL
        ∨ (sampleReal : FFTFSingleInstance ℚ).type = .FFTF_TYPE_DCT →
      (sampleReal : FFTFSingleInstance ℚ).dimension = .FFTF_DIMENSION_1D)
      ∧ (sampleReal : FFTFSingleInstance ℚ).type = .FFTF_TYPE_REAL
      ∧ ((init_kiss IntRange.int32 false sampleUninit emptyHeap
            (sampleReal : FFTFSingleInstance ℚ)).isSome = true
          ↔ ((sampleReal : FFTFSingleInstance ℚ).type = .FFTF_TYPE_DCT →
              IntRange.int32.Fits (4 * 2 + 2)))
      ∧ ∀ h1 inst1,
          init_kiss IntRange.int32 false sampleUninit emptyHeap
            (sampleReal : FFTFSingleInstance ℚ) = some (h1, inst1) →
          ∃ r, calc_kiss markBackend inst1 = some r
            ∧ ((sampleReal : FFTFSingleInstance ℚ).type = .FFTF_TYPE_COMPLEX →
                (sampleReal : FFTFSingleInstance ℚ).dimension = .FFTF_DIMENSION_1D →
                ∃ cfg, inst1.internalData = .fft_cfg cfg ∧ cfg.nfft = 4
                  ∧ r.call = PrimCall.kiss_fft cfg (sampleReal : FFTFSingleInstance ℚ).input
                  ∧ r.inst.output
                      = markBackend.kiss_fft cfg (sampleReal : FFTFSingleInstance ℚ).input
                          (sampleReal : FFTFSingleInstance ℚ).output)
            ∧ ((sampleReal : FFTFSingleInstance ℚ).type = .FFTF_TYPE_COMPLEX →
                (sampleReal : FFTFSingleInstance ℚ).dimension ≠ .FFTF_DIMENSION_1D →
                ∃ cfg, inst1.internalData = .fftnd_cfg cfg ∧ cfg.dims = [4]
                  ∧ cfg.ndims = 1
                  ∧ r.call = PrimCall.kiss_fftnd cfg (sampleReal : FFTFSingleInstance ℚ).input
                  ∧ r.inst.output
                      = markBackend.kiss_fftnd cfg (sampleReal : FFTFSingleInstance ℚ).input
                          (sampleReal : FFTFSingleInstance ℚ).output)
            ∧ ((sampleReal : FFTFSingleInstance ℚ).type = .FFTF_TYPE_REAL →
                ∃ cfg, inst1.internalData = .fftr_cfg cfg ∧ cfg.nfft = 4
                  ∧ ((r.call = PrimCall.kiss_fftr cfg (sampleReal : FFTFSingleInstance ℚ).input
                        ∧ r.inst.output
                            = markBackend.kiss_fftr cfg
                                (sampleReal : FFTFSingleInstance ℚ).input
                                (sampleReal : FFTFSingleInstance ℚ).output)
                      ∨ (r.call
                          = PrimCall.kiss_fftri cfg (sampleReal : FFTFSingleInstance ℚ).input
                        ∧ r.inst.output
                            = markBackend.kiss_fftri cfg
                                (sampleReal : FFTFSingleInstance ℚ).input
                                (sampleReal : FFTFSingleInstance ℚ).output)))
            ∧ ((sampleReal : FFTFSingleInstance ℚ).type = .FFTF_TYPE_DCT →
                ∃ d buf d', inst1.internalData = .dct d ∧ d.cfg.nfft = 2 * 4
                  ∧ d.input.size = 2 * 4 + 2 ∧ d.output.size = 2 * 4 + 2
                  ∧ r.inst.internalData = .dct d' ∧ d'.input.data = buf
                  ∧ ((r.call = PrimCall.kiss_fftr d.cfg buf
                        ∧ d'.output.data = markBackend.kiss_fftr d.cfg buf d.output.data)
                      ∨ (r.call = PrimCall.kiss_fftri d.cfg buf
                        ∧ d'.output.data = markBackend.kiss_fftri d.cfg buf d.output.data))) :=
  ⟨fun _ => rfl, rfl,
    plan_kind_agreement IntRange.int32 markBackend false sampleUninit emptyHeap
      (sampleReal : FFTFSingleInstance ℚ) (fun _ => rfl)⟩

/-- Instance of C5 at the two-point backward DCT instance on `[1, 2]`
with a 32-bit `int`. -/
theorem direction_agreement_witness :
    ((sampleDCT .FFTF_DIRECTION_BACKWARD : FFTFSingleInstance ℚ).type = .FFTF_TYPE_REAL
        ∨ (sampleDCT .FFTF_DIRECTION_BACKWARD : FFTFSingleInstance ℚ).type = .FFTF_TYPE_DCT)
      ∧ ((init_kiss IntRange.int32 false sampleUninit emptyHeap
            (sampleDCT .FFTF_DIRECTION_BACKWARD : FFTFSingleInstance ℚ)).isSome = true
          ↔ (false = true
              ∨ (sampleDCT .FFTF_DIRECTION_BACKWARD : FFTFSingleInstance ℚ).dimension
                  = .FFTF_DIMENSION_1D)
            ∧ ((sampleDCT .FFTF_DIRECTION_BACKWARD : FFTFSingleInstance ℚ).type
                  = .FFTF_TYPE_DCT → IntRange.int32.Fits (2 * 2 + 2)))
      ∧ ∀ h1 inst1,
          init_kiss IntRange.int32 false sampleUninit emptyHeap
            (sampleDCT .FFTF_DIRECTION_BACKWARD : FFTFSingleInstance ℚ) = some (h1, inst1) →
          ∃ cfg r buf prior dest,
            ((inst1.internalData = .fftr_cfg cfg
                ∧ buf = (sampleDCT .FFTF_DIRECTION_BACKWARD : FFTFSingleInstance ℚ).input
                ∧ prior = (sampleDCT .FFTF_DIRECTION_BACKWARD : FFTFSingleInstance ℚ).output
                ∧ dest = r.inst.output)
              ∨ ∃ d d', inst1.internalData = .dct d ∧ d.cfg = cfg
                  ∧ r.inst.internalData = .dct d' ∧ buf = d'.input.data
                  ∧ prior = d.output.data ∧ dest = d'.output.data)
            ∧ (cfg.inverse = true
                ↔ (sampleDCT .FFTF_DIRECTION_BACKWARD : FFTFSingleInstance ℚ).direction
                    = .FFTF_DIRECTION_BACKWARD)
            ∧ calc_kiss markBackend inst1 = some r
            ∧ (((sampleDCT .FFTF_DIRECTION_BACKWARD : FFTFSingleInstance ℚ).direction
                    = .FFTF_DIRECTION_FORWARD
                  ∧ r.call = PrimCall.kiss_fftr cfg buf
                  ∧ dest = markBackend.kiss_fftr cfg buf prior ∧ cfg.inverse = false)
                ∨ ((sampleDCT .FFTF_DIRECTION_BACKWARD : FFTFSingleInstance ℚ).direction
                    = .FFTF_DIRECTION_BACKWARD
                  ∧ r.call = PrimCall.kiss_fftri cfg buf
                  ∧ dest = markBackend.kiss_fftri cfg buf prior ∧ cfg.inverse = true))
            ∧ ((sampleDCT .FFTF_DIRECTION_BACKWARD : FFTFSingleInstance ℚ).type
                  = .FFTF_TYPE_DCT → cfg.nfft = 2 * 2 ∧ cfg.nfft % 2 = 0) :=
  ⟨Or.inr rfl,
    direction_agreement IntRange.int32 markBackend false sampleUninit emptyHeap
      (sampleDCT .FFTF_DIRECTION_BACKWARD : FFTFSingleInstance ℚ) (Or.inr rfl)⟩

end Claims

end FFTF
